import Mathlib

/-!
# Verification of the gyn-vision video segmentation pipeline

A shallow embedding of the core of `backend/core/constants.py`,
`backend/core/postprocessing.py`, `backend/core/streaming.py` and the
`sample_rate` handling of `backend/api/routes.py`, together with theorems
settling the frozen claims about the natural-language specification.

Modelling conventions:
* uint8 pixel values are `Nat`; images are row-major `List (List RGB)`;
  class-index masks are `List (List Nat)`.
* Python `float` arithmetic is modelled over `ℚ`; `numpy`'s
  `.astype(np.uint8)` on the non-negative values arising here is modelled
  as `Int.toNat ∘ Int.floor` followed by `% 256`.
* Python's `round(x, 2)` (round half to even) is modelled by `round2`.
* External libraries (PIL resize, cv2 resize / colour conversion / JPEG
  encoding, the ONNX session) are opaque function parameters, as the spec
  treats the inference engine and transport as external collaborators.
* File and container I/O (temp files, codec selection, ffmpeg re-encode)
  is outside the shallow embedding; the frame loops are embedded exactly.
-/

/-- An RGB pixel, each channel a uint8 value. -/
abbrev RGB : Type := ℕ × ℕ × ℕ

/-- A decoded image, row major (`numpy` shape `(H, W, 3)`). -/
abbrev ImageT : Type := List (List RGB)

/-- A class-index mask, row major (`numpy` shape `(H, W)`, dtype uint8). -/
abbrev MaskT : Type := List (List ℕ)

/-- One entry of the `CLASS_METADATA_*` tables of `constants.py`. -/
structure ClassMeta where
  id : ℕ
  name : String
  color : String
deriving DecidableEq

/-- `constants.CLASS_METADATA_4`: the 4-class palette. -/
def CLASS_METADATA_4 : List ClassMeta :=
  [⟨0, "background", "#FF0000"⟩,
   ⟨1, "uterus", "#0000FF"⟩,
   ⟨2, "fallopian_tube", "#00FF00"⟩,
   ⟨3, "ovary", "#A020F0"⟩]

/-- `constants.COLOR_MAP_4`. -/
def COLOR_MAP_4 : List (ℕ × RGB) :=
  [(0, (255, 0, 0)), (1, (0, 0, 255)), (2, (0, 255, 0)), (3, (160, 32, 240))]

/-- `constants.CLASS_METADATA_8`: the 8-class palette. -/
def CLASS_METADATA_8 : List ClassMeta :=
  [⟨0, "background", "#000000"⟩,
   ⟨1, "External Iliac Artery", "#FF0000"⟩,
   ⟨2, "External Iliac Vein", "#0000FF"⟩,
   ⟨3, "Obturator Nerve", "#00FF00"⟩,
   ⟨4, "Ovary", "#FFFF00"⟩,
   ⟨5, "Ureter", "#FF00FF"⟩,
   ⟨6, "Uterine Artery", "#00FFFF"⟩,
   ⟨7, "Uterus", "#A020F0"⟩]

/-- `constants.COLOR_MAP_8`. -/
def COLOR_MAP_8 : List (ℕ × RGB) :=
  [(0, (0, 0, 0)), (1, (255, 0, 0)), (2, (0, 0, 255)), (3, (0, 255, 0)),
   (4, (255, 255, 0)), (5, (255, 0, 255)), (6, (0, 255, 255)), (7, (160, 32, 240))]

/-- `constants.CLASS_METADATA_2`: the 2-class palette. -/
def CLASS_METADATA_2 : List ClassMeta :=
  [⟨0, "background", "#000000"⟩, ⟨1, "tissue", "#FF0000"⟩]

/-- `constants.COLOR_MAP_2`. -/
def COLOR_MAP_2 : List (ℕ × RGB) :=
  [(0, (0, 0, 0)), (1, (255, 0, 0))]

/-- `constants.get_color_map`. -/
def get_color_map (num_classes : ℕ) : List (ℕ × RGB) :=
  if num_classes = 2 then COLOR_MAP_2
  else if num_classes = 8 then COLOR_MAP_8
  else COLOR_MAP_4

/-- `constants.get_class_metadata`. -/
def get_class_metadata (num_classes : ℕ) : List ClassMeta :=
  if num_classes = 2 then CLASS_METADATA_2
  else if num_classes = 8 then CLASS_METADATA_8
  else CLASS_METADATA_4

/-- Round half to even, the semantics of Python's builtin `round`. -/
def rhe (q : ℚ) : ℤ :=
  let f := ⌊q⌋
  let frac := q - (f : ℚ)
  if frac < 1/2 then f
  else if 1/2 < frac then f + 1
  else if f % 2 = 0 then f else f + 1

/-- Python's `round(x, 2)`: round to 2 decimal places, half to even. -/
def round2 (q : ℚ) : ℚ := (rhe (100 * q) : ℚ) / 100

/-- One per-frame, per-class statistic (`calculate_statistics` list entry). -/
structure ClassStat where
  id : ℕ
  name : String
  color : String
  area_percent : ℚ
  present : Bool
deriving DecidableEq

/-- One aggregated per-class statistic (`aggregate_video_statistics` entry). -/
structure AggStat where
  id : ℕ
  name : String
  color : String
  frames_present : ℕ
  avg_area_percent : ℚ
deriving DecidableEq

/-- `postprocessing.calculate_statistics`.  `mask.size` is the total pixel
count and `np.sum(mask == class_id)` the per-class count, modelled on the
flattened mask.  Note Python raises `ZeroDivisionError` for an empty mask;
the ℚ model returns 0 there, and every theorem about this function assumes
a non-empty mask. -/
def calculate_statistics (mask : MaskT) (num_classes : ℕ) : List ClassStat :=
  let flat := mask.flatten
  let total_pixels := flat.length
  (get_class_metadata num_classes).map (fun class_info =>
    let pixel_count := flat.countP (fun p => p = class_info.id)
    let area_percent : ℚ := ((pixel_count : ℚ) / (total_pixels : ℚ)) * 100
    { id := class_info.id
      name := class_info.name
      color := class_info.color
      area_percent := round2 area_percent
      present := decide (0 < pixel_count) })

/-- `postprocessing.aggregate_video_statistics`.  For each non-background
class of the active palette it counts the frames where the class is present
and sums `area_percent` over exactly those frames, then divides by the
number of frames (0 for an empty list, per the Python conditional). -/
def aggregate_video_statistics (frames_stats : List (List ClassStat))
    (num_classes : ℕ) : List AggStat :=
  ((get_class_metadata num_classes).filter (fun ci => ci.id ≠ 0)).map (fun class_info =>
    let acc := frames_stats.foldl (fun (acc : ℕ × ℚ) frame_stat =>
      match frame_stat.find? (fun s => s.id = class_info.id) with
      | some class_stat =>
          if class_stat.present then (acc.1 + 1, acc.2 + class_stat.area_percent)
          else acc
      | none => acc) (0, 0)
    let avg_area : ℚ :=
      if frames_stats.isEmpty then 0 else acc.2 / (frames_stats.length : ℚ)
    { id := class_info.id
      name := class_info.name
      color := class_info.color
      frames_present := acc.1
      avg_area_percent := round2 avg_area })

/-- `routes.segment_video`: `sample_rate = max(1, min(30, sample_rate))`. -/
def segment_video_sample_rate (sample_rate : ℤ) : ℤ :=
  max 1 (min 30 sample_rate)

/-- `routes.segment_video_stream`: `sample_rate = max(1, min(30, sample_rate))`. -/
def segment_video_stream_sample_rate (sample_rate : ℤ) : ℤ :=
  max 1 (min 30 sample_rate)

/-- `postprocessing.mask_to_color`: map each class index through the colour
map selected by `num_classes`; indices outside the map keep the zero
initialisation.  The Python loop assigns per map entry; since the keys of
every `COLOR_MAP_*` are distinct this equals a per-pixel first-match
lookup. -/
def mask_to_color (mask : MaskT) (num_classes : ℕ) : ImageT :=
  let color_map := get_color_map num_classes
  mask.map (fun row => row.map (fun p =>
    match color_map.find? (fun kc => kc.1 = p) with
    | some kc => kc.2
    | none => ((0, 0, 0) : RGB)))

/-- `numpy` float-to-uint8 conversion on the non-negative values arising in
blending: truncate, then wrap modulo 256. -/
def u8ofQ (q : ℚ) : ℕ := (⌊q⌋).toNat % 256

/-- One blended pixel of `create_overlay`:
`((1 - alpha) * orig + alpha * color).astype(np.uint8)`, per channel. -/
def blendPixel (alpha : ℚ) (o c : RGB) : RGB :=
  (u8ofQ ((1 - alpha) * (o.1 : ℚ) + alpha * (c.1 : ℚ)),
   u8ofQ ((1 - alpha) * (o.2.1 : ℚ) + alpha * (c.2.1 : ℚ)),
   u8ofQ ((1 - alpha) * (o.2.2 : ℚ) + alpha * (c.2.2 : ℚ)))

/-- Width of an image (`shape[1]`). -/
def imgWidth (img : ImageT) : ℕ := ((List.head? img).map List.length).getD 0

/-- Height of an image (`shape[0]`). -/
def imgHeight (img : ImageT) : ℕ := List.length img

/-- `postprocessing.create_overlay`.  `resize` stands for PIL's
`Image.resize(..., Image.BILINEAR)`; the source resizes the original image
to `(color_mask.shape[1], color_mask.shape[0])`, copies it, and overwrites
exactly the pixels where `mask > 0` with the alpha blend. -/
def create_overlay (resize : ImageT → ℕ → ℕ → ImageT)
    (original_image : ImageT) (color_mask : ImageT) (mask : MaskT)
    (alpha : ℚ) : ImageT :=
  let orig_array := resize original_image (imgWidth color_mask) (imgHeight color_mask)
  List.zipWith (fun (orow : List RGB) (cm : List RGB × List ℕ) =>
      List.zipWith (fun (o : RGB) (cp : RGB × ℕ) =>
        if 0 < cp.2 then blendPixel alpha o cp.1 else o)
        orow (cm.1.zip cm.2))
    orig_array (color_mask.zip mask)

/-- Cell access in a 2-D list, `none` when out of range. -/
def cell? {γ : Type} (grid : List (List γ)) (i j : ℕ) : Option γ :=
  (grid[i]?).bind (fun row => row[j]?)

/-- A `numpy` ndarray of rationals, as a nesting of lists.  Regular
(non-ragged) nestings correspond to actual ndarrays. -/
inductive NDArray where
  | val (x : ℚ)
  | arr (xs : List NDArray)

instance : Inhabited NDArray := ⟨.arr []⟩

/-- `ndim` of an ndarray, read off the first component of each level. -/
def NDArray.ndim : NDArray → ℕ
  | .val _ => 0
  | .arr [] => 1
  | .arr (x :: _) => 1 + x.ndim

/-- Index one level into an ndarray (`a[i]`); 0 when out of range, which
cannot happen on the regular arrays produced by `numpy`. -/
def NDArray.get1 : NDArray → ℕ → NDArray
  | .val v, _ => .val v
  | .arr xs, i => (xs[i]?).getD (.arr [])

/-- Index of the first maximum of a list of rationals (`np.argmax` on the
last axis direction of a stack): ties keep the first occurrence. -/
def argmaxIdx (vs : List ℚ) : ℕ :=
  (vs.foldl (fun (acc : ℕ × ℕ × Option ℚ) v =>
    match acc.2.2 with
    | none => (acc.1, acc.1 + 1, some v)
    | some best => if best < v then (acc.2.1, acc.2.1 + 1, some v)
                   else (acc.1, acc.2.1 + 1, some best)) (0, 0, none)).1

/-- Scalar payload of an ndarray leaf; 0 on a non-leaf. -/
def NDArray.headVal : NDArray → ℚ
  | .val v => v
  | .arr _ => 0

/-- `np.argmax(np.stack ts, axis=0)` with recursion fuel equal to the
number of remaining inner axes. -/
def argmax0Fuel : ℕ → List NDArray → NDArray
  | 0, ts => .val ((argmaxIdx (ts.map NDArray.headVal) : ℕ) : ℚ)
  | d + 1, ts =>
    let n := ((ts.head?).map (fun t => match t with
      | .val _ => 0
      | .arr xs => xs.length)).getD 0
    .arr ((List.range n).map (fun i => argmax0Fuel d (ts.map (fun t => t.get1 i))))

/-- `np.argmax(output, axis=0)` where `output = np.stack ts`. -/
def argmax0 (ts : List NDArray) : NDArray :=
  argmax0Fuel (((ts.head?).map NDArray.ndim).getD 0) ts

/-- Elementwise `(x > 0.5).astype(...)`. -/
def threshold05 : NDArray → NDArray
  | .val v => .val (if 1/2 < v then 1 else 0)
  | .arr xs => .arr (xs.attach.map (fun y => threshold05 y.1))
decreasing_by
  have := List.sizeOf_lt_of_mem y.2
  simp only [NDArray.arr.sizeOf_spec]
  omega

/-- Elementwise `.astype(np.uint8)` on the non-negative index/boolean
values this code applies it to. -/
def astypeU8 : NDArray → NDArray
  | .val v => .val (((⌊v⌋).toNat % 256 : ℕ) : ℚ)
  | .arr xs => .arr (xs.attach.map (fun y => astypeU8 y.1))
decreasing_by
  have := List.sizeOf_lt_of_mem y.2
  simp only [NDArray.arr.sizeOf_spec]
  omega

/-- `np.zeros((h, w), dtype=np.uint8)`. -/
def zerosMask (h w : ℕ) : NDArray :=
  .arr (List.replicate h (.arr (List.replicate w (.val 0))))

/-- The `type` field of a model config: `config.get('type', 'segformer')`.
Only the comparison with the literal `yolo` is ever made, so all other
strings are identified with `segformer`. -/
inductive ModelType where
  | segformer
  | yolo
deriving DecidableEq

/-- `run_inference`'s return value: the first output array for SegFormer,
the whole output list for YOLO. -/
inductive Logits where
  | seg (t : NDArray)
  | yolo (outs : List NDArray)

/-- Error message of the `IndexError` raised by `logits[0]` on an empty
list or by `outputs[0]` on an empty output list. -/
def indexErrorMsg : String := "list index out of range"

/-- Error message when `np.argmax(x, axis=0)` is applied to a 0-d array. -/
def argmaxAxisErrorMsg : String := "axis 0 is out of bounds"

/-- `logits[0]`: first element of the YOLO output list, or first row of the
SegFormer logits array.  Raises `IndexError` on an empty list / 1-d empty
array, and a `TypeError`-like failure on a 0-d array. -/
def logitsGetFirst : Logits → Except String NDArray
  | .yolo [] => .error indexErrorMsg
  | .yolo (o :: _) => .ok o
  | .seg (.arr (x :: _)) => .ok x
  | .seg (.arr []) => .error indexErrorMsg
  | .seg (.val _) => .error argmaxAxisErrorMsg

/-- `isinstance(logits, list) and len(logits) > 0`. -/
def logitsIsNonemptyList : Logits → Bool
  | .yolo (_ :: _) => true
  | .yolo [] => false
  | .seg _ => false

/-- The body of the `try` block of `generate_mask`'s YOLO branch: arg-max
across channels when the output has at least 3 dimensions and more than
one leading channel, threshold at 0.5 for exactly one channel, and the
all-zero mask whenever the shape cannot be interpreted (the caught
`IndexError` of `output[0]` on an empty leading axis included). -/
def yolo_decode_mask (input_shape : ℕ × ℕ) : NDArray → NDArray
  | .arr ts =>
    if 3 ≤ NDArray.ndim (.arr ts) then
      if 1 < ts.length then astypeU8 (argmax0 ts)
      else
        match ts with
        | t :: _ => astypeU8 (threshold05 t)
        | [] => zerosMask input_shape.2 input_shape.1
    else zerosMask input_shape.2 input_shape.1
  | .val _ => zerosMask input_shape.2 input_shape.1

/-- `postprocessing.generate_mask`.  `resizeNN` stands for
`cv2.resize(..., interpolation=cv2.INTER_NEAREST)`.  For YOLO, note that
`output = logits[0]` executes *before* the `try` block, so an empty output
list raises; inside the `try`, a decode failure (`output[0]` on an empty
first axis) is caught and leaves the all-zero mask.  For SegFormer,
`np.argmax(logits[0], axis=0).astype(np.uint8)` with no exception
handling. -/
def generate_mask (resizeNN : NDArray → ℕ × ℕ → NDArray) (logits : Logits)
    (original_size : Option (ℕ × ℕ)) (model_type : ModelType)
    (input_shape : ℕ × ℕ) : Except String NDArray :=
  match model_type with
  | .yolo =>
    match logitsGetFirst logits with
    | .error e => .error e
    | .ok output =>
      let h := input_shape.2
      let w := input_shape.1
      let empty_mask := zerosMask h w
      let mask :=
        if logitsIsNonemptyList logits then yolo_decode_mask input_shape output
        else empty_mask
      .ok (match original_size with
           | some sz => resizeNN mask sz
           | none => mask)
  | .segformer =>
    match logitsGetFirst logits with
    | .error e => .error e
    | .ok first =>
      match first with
      | .arr ts =>
        let mask := astypeU8 (argmax0 ts)
        .ok (match original_size with
             | some sz => resizeNN mask sz
             | none => mask)
      | .val _ => .error argmaxAxisErrorMsg

/-- `postprocessing.run_inference`: run the session and return the whole
output list for YOLO, the first output for SegFormer (raising on an empty
output list). -/
def run_inference (session : List (List (List (List ℚ))) → List NDArray)
    (input_tensor : List (List (List (List ℚ)))) (model_type : ModelType) :
    Except String Logits :=
  let outputs := session input_tensor
  match model_type with
  | .yolo => .ok (.yolo outputs)
  | .segformer =>
    match outputs with
    | o :: _ => .ok (.seg o)
    | [] => .error indexErrorMsg

/-- View a (uint8-valued) 2-d ndarray as a mask; `h, w = mask.shape`
raises for any other rank, and the values are read back as naturals. -/
def toGrid : NDArray → Except String MaskT
  | .arr rows => rows.mapM (fun r =>
      match r with
      | .arr cells => cells.mapM (fun c =>
          match c with
          | .val q => Except.ok ((⌊q⌋).toNat)
          | .arr _ => Except.error argmaxAxisErrorMsg)
      | .val _ => Except.error argmaxAxisErrorMsg)
  | .val _ => .error argmaxAxisErrorMsg

/-- Result record of `process_segmentation_result`. -/
structure SegResult where
  mask : MaskT
  mask_image : ImageT
  overlay_image : ImageT
  statistics : List ClassStat

/-- `postprocessing.process_segmentation_result`: mask, colour mask,
overlay (at the default `alpha = 0.4 = 2/5`) and statistics. -/
def process_segmentation_result (resizeB : ImageT → ℕ → ℕ → ImageT)
    (resizeNN : NDArray → ℕ × ℕ → NDArray) (logits : Logits)
    (original_image : ImageT) (original_size : ℕ × ℕ)
    (model_type : ModelType) (input_shape : ℕ × ℕ) (num_classes : ℕ) :
    Except String SegResult :=
  match generate_mask resizeNN logits (some original_size) model_type input_shape with
  | .error e => .error e
  | .ok mask_raw =>
    match toGrid mask_raw with
    | .error e => .error e
    | .ok mask =>
      let color_mask := mask_to_color mask num_classes
      let overlay := create_overlay resizeB original_image color_mask mask (2/5)
      let stats := calculate_statistics mask num_classes
      .ok ⟨mask, color_mask, overlay, stats⟩

/-- Static model configuration, the fields `create_video_with_overlay` and
`stream_video_segmentation` read out of `config`. -/
structure ModelConfig where
  input_size : ℕ
  normalize : Bool
  mean : Option (ℚ × ℚ × ℚ)
  std : Option (ℚ × ℚ × ℚ)
  model_type : ModelType
  num_classes : ℕ

/-- The external collaborators of the per-frame chain: cv2 colour
conversions, PIL bilinear resize, cv2 nearest resize, and the ONNX
session. -/
structure Externals (F : Type) where
  cvtBGR2RGB : F → ImageT
  cvtRGB2BGR : ImageT → ImageT
  resizeBilinear : ImageT → ℕ → ℕ → ImageT
  resizeNearest : NDArray → ℕ × ℕ → NDArray
  session : List (List (List (List ℚ))) → List NDArray

/-- The per-frame encode→infer→decode→colorize→blend chain exactly as it
appears inline in `create_video_with_overlay`
(`postprocessing.py`, the `should_process` branch). -/
def video_frame_overlay {F : Type} (E : Externals F) (cfg : ModelConfig)
    (frame : F) : Except String ImageT :=
  let frame_rgb := E.cvtBGR2RGB frame
  let original_frame := frame_rgb
  let resized_frame := E.resizeBilinear original_frame cfg.input_size cfg.input_size
  let img_array0 := resized_frame.map (fun row => row.map (fun p =>
    ((p.1 : ℚ) / 255, (p.2.1 : ℚ) / 255, (p.2.2 : ℚ) / 255)))
  let img_array : List (List (ℚ × ℚ × ℚ)) :=
    match cfg.normalize, cfg.mean, cfg.std with
    | true, some m, some s =>
      img_array0.map (fun row => row.map (fun p =>
        ((p.1 - m.1) / s.1, (p.2.1 - m.2.1) / s.2.1, (p.2.2 - m.2.2) / s.2.2)))
    | _, _, _ => img_array0
  let input_tensor : List (List (List (List ℚ))) :=
    [[img_array.map (fun row => row.map (fun p => p.1)),
      img_array.map (fun row => row.map (fun p => p.2.1)),
      img_array.map (fun row => row.map (fun p => p.2.2))]]
  match run_inference E.session input_tensor cfg.model_type with
  | .error e => .error e
  | .ok logits =>
    match process_segmentation_result E.resizeBilinear E.resizeNearest logits
        original_frame (imgWidth original_frame, imgHeight original_frame)
        cfg.model_type (cfg.input_size, cfg.input_size) cfg.num_classes with
    | .error e => .error e
    | .ok result => .ok (E.cvtRGB2BGR result.overlay_image)

/-- The per-frame encode→infer→decode→colorize→blend chain exactly as it
appears inline in `stream_video_segmentation`
(`streaming.py`, the `should_process` branch). -/
def stream_frame_overlay {F : Type} (E : Externals F) (cfg : ModelConfig)
    (frame : F) : Except String ImageT :=
  let frame_rgb := E.cvtBGR2RGB frame
  let original_frame := frame_rgb
  let resized_frame := E.resizeBilinear original_frame cfg.input_size cfg.input_size
  let img_array0 := resized_frame.map (fun row => row.map (fun p =>
    ((p.1 : ℚ) / 255, (p.2.1 : ℚ) / 255, (p.2.2 : ℚ) / 255)))
  let img_array : List (List (ℚ × ℚ × ℚ)) :=
    match cfg.normalize, cfg.mean, cfg.std with
    | true, some m, some s =>
      img_array0.map (fun row => row.map (fun p =>
        ((p.1 - m.1) / s.1, (p.2.1 - m.2.1) / s.2.1, (p.2.2 - m.2.2) / s.2.2)))
    | _, _, _ => img_array0
  let input_tensor : List (List (List (List ℚ))) :=
    [[img_array.map (fun row => row.map (fun p => p.1)),
      img_array.map (fun row => row.map (fun p => p.2.1)),
      img_array.map (fun row => row.map (fun p => p.2.2))]]
  match run_inference E.session input_tensor cfg.model_type with
  | .error e => .error e
  | .ok logits =>
    match process_segmentation_result E.resizeBilinear E.resizeNearest logits
        original_frame (imgWidth original_frame, imgHeight original_frame)
        cfg.model_type (cfg.input_size, cfg.input_size) cfg.num_classes with
    | .error e => .error e
    | .ok result => .ok (E.cvtRGB2BGR result.overlay_image)

/-- The frame-sampling state shared by both sinks:
`frame_count = 0, processed_count = 0, last_overlay_bgr = None`. -/
structure VideoState (Ov : Type) where
  frame_count : ℕ
  processed_count : ℕ
  last_overlay : Option Ov
deriving DecidableEq

/-- The per-iteration write of the batch sink:
`out.write(last_overlay_bgr)` when an overlay exists, else the fallback
`out.write(frame)` on the original frame. -/
def writeFrame {F Ov : Type} (last_overlay : Option Ov) (frame : F) : F ⊕ Ov :=
  match last_overlay with
  | some ov => Sum.inr ov
  | none => Sum.inl frame

/-- One iteration of the `create_video_with_overlay` frame loop: increment
`frame_count`; when `(frame_count - 1) % sample_rate == 0` run the chain,
increment `processed_count` and replace `last_overlay_bgr`; then write
either the (possibly reused) overlay or, lacking one, the original frame. -/
def videoStep {F Ov : Type} (chain : F → Except String Ov) (sample_rate : ℕ)
    (s : VideoState Ov) (frame : F) :
    Except String (VideoState Ov × (F ⊕ Ov)) :=
  let frame_count := s.frame_count + 1
  if (frame_count - 1) % sample_rate = 0 then
    match chain frame with
    | .error e => .error e
    | .ok ov =>
      .ok (⟨frame_count, s.processed_count + 1, some ov⟩, Sum.inr ov)
  else
    .ok (⟨frame_count, s.processed_count, s.last_overlay⟩,
         writeFrame s.last_overlay frame)

/-- The `while True: ret, frame = cap.read()` loop of
`create_video_with_overlay`, over the list of decodable frames. -/
def videoLoop {F Ov : Type} (chain : F → Except String Ov) (sample_rate : ℕ)
    (s : VideoState Ov) :
    List F → Except String (VideoState Ov × List (F ⊕ Ov))
  | [] => .ok (s, [])
  | frame :: rest =>
    match videoStep chain sample_rate s frame with
    | .error e => .error e
    | .ok (s1, w) =>
      match videoLoop chain sample_rate s1 rest with
      | .error e => .error e
      | .ok (s2, ws) => .ok (s2, w :: ws)

/-- `postprocessing.create_video_with_overlay`, restricted to its frame
loop: temp-file handling, codec selection and the ffmpeg re-encode pass are
container I/O outside the embedding.  Returns the final counters and the
sequence of frames written to the container. -/
def create_video_with_overlay {F Ov : Type} (chain : F → Except String Ov)
    (sample_rate : ℕ) (frames : List F) :
    Except String (VideoState Ov × List (F ⊕ Ov)) :=
  videoLoop chain sample_rate ⟨0, 0, none⟩ frames

/-- One event of the streaming sink (`streaming.py` yields). -/
inductive StreamEvent (P : Type) where
  | metadata (fps : ℚ) (total_frames : ℕ) (width : ℕ) (height : ℕ)
      (sample_rate : ℕ)
  | frame (frame_index : ℕ) (total_frames : ℕ) (processed_count : ℕ)
      (frame_data : P) (progress : ℚ)
  | complete (total_frames : ℕ) (processed_frames : ℕ)
deriving DecidableEq

/-- The `frame_index` carried by a frame event, `none` for the other
event kinds. -/
def StreamEvent.frameIndex? {P : Type} : StreamEvent P → Option ℕ
  | .frame i _ _ _ _ => some i
  | _ => none

/-- One iteration of the `stream_video_segmentation` frame loop: the same
sampling state machine as the batch sink, but instead of writing a frame it
yields at most one frame event, carrying the JPEG/base64 encoding (`enc`)
of the current overlay; no event is emitted while `last_overlay_bgr` is
`None`. -/
def streamStep {F Ov P : Type} (chain : F → Except String Ov) (enc : Ov → P)
    (sample_rate total_frames : ℕ) (s : VideoState Ov) (frame : F) :
    Except String (VideoState Ov × List (StreamEvent P)) :=
  let frame_count := s.frame_count + 1
  if (frame_count - 1) % sample_rate = 0 then
    match chain frame with
    | .error e => .error e
    | .ok ov =>
      .ok (⟨frame_count, s.processed_count + 1, some ov⟩,
           [.frame frame_count total_frames (s.processed_count + 1) (enc ov)
              ((frame_count : ℚ) / (total_frames : ℚ) * 100)])
  else
    .ok (⟨frame_count, s.processed_count, s.last_overlay⟩,
         match s.last_overlay with
         | some ov =>
           [.frame frame_count total_frames s.processed_count (enc ov)
              ((frame_count : ℚ) / (total_frames : ℚ) * 100)]
         | none => [])

/-- The frame loop of `stream_video_segmentation`. -/
def streamLoop {F Ov P : Type} (chain : F → Except String Ov) (enc : Ov → P)
    (sample_rate total_frames : ℕ) (s : VideoState Ov) :
    List F → Except String (VideoState Ov × List (StreamEvent P))
  | [] => .ok (s, [])
  | frame :: rest =>
    match streamStep chain enc sample_rate total_frames s frame with
    | .error e => .error e
    | .ok (s1, es1) =>
      match streamLoop chain enc sample_rate total_frames s1 rest with
      | .error e => .error e
      | .ok (s2, es2) => .ok (s2, es1 ++ es2)

/-- `streaming.stream_video_segmentation`: one metadata event, the frame
loop's events, then one complete event carrying the final counters.
`total_frames` is the number of decodable frames of the input video. -/
def stream_video_segmentation {F Ov P : Type} (chain : F → Except String Ov)
    (enc : Ov → P) (sample_rate : ℕ) (fps : ℚ) (width height : ℕ)
    (frames : List F) : Except String (List (StreamEvent P)) :=
  let total_frames := frames.length
  match streamLoop chain enc sample_rate total_frames ⟨0, 0, none⟩ frames with
  | .error e => .error e
  | .ok (s, events) =>
    .ok (StreamEvent.metadata fps total_frames width height sample_rate
          :: events
          ++ [StreamEvent.complete s.frame_count s.processed_count])

/-- The batch endpoint's pipeline with the real inline chain. -/
def create_video_with_overlay_full {F : Type} (E : Externals F)
    (cfg : ModelConfig) (sample_rate : ℕ) (frames : List F) :
    Except String (VideoState ImageT × List (F ⊕ ImageT)) :=
  create_video_with_overlay (video_frame_overlay E cfg) sample_rate frames

/-- The streaming endpoint's pipeline with the real inline chain; `enc`
stands for `cv2.imencode('.jpg', ...)` plus base64. -/
def stream_video_segmentation_full {F : Type} (E : Externals F)
    (cfg : ModelConfig) (enc : ImageT → String) (sample_rate : ℕ) (fps : ℚ)
    (width height : ℕ) (frames : List F) :
    Except String (List (StreamEvent String)) :=
  stream_video_segmentation (stream_frame_overlay E cfg) enc sample_rate fps
    width height frames

/-- The overlay the sampling state machine assigns to the frame at 0-based
position `i` of a window starting at absolute frame position `k` with
incoming reuse state `lo`: the chain output of the most recent due frame
inside the window when one exists, and `lo` otherwise. -/
def reuseSpec {F Ov : Type} (proc : F → Ov) (sample_rate k : ℕ)
    (lo : Option Ov) (frames : List F) (i : ℕ) : Option Ov :=
  if (k + i) % sample_rate ≤ i then
    (frames[i - (k + i) % sample_rate]?).map proc
  else lo

theorem reuseSpec_cons_due {F Ov : Type} (proc : F → Ov) (sample_rate k : ℕ)
    (hsr : 1 ≤ sample_rate) (hk : k % sample_rate = 0) (lo : Option Ov)
    (f : F) (rest : List F) (i : ℕ) :
    reuseSpec proc sample_rate (k + 1) (some (proc f)) rest i
      = reuseSpec proc sample_rate k lo (f :: rest) (i + 1) := by
  unfold reuseSpec
  have hmod : (k + (i + 1)) % sample_rate = (i + 1) % sample_rate := by
    conv_lhs => rw [Nat.add_mod, hk]
    rw [Nat.zero_add]
    exact Nat.mod_mod_of_dvd _ dvd_rfl
  have harr : k + 1 + i = k + (i + 1) := by omega
  rw [harr]
  by_cases hr : (k + (i + 1)) % sample_rate ≤ i
  · rw [if_pos hr, if_pos (by omega)]
    have hsub : i + 1 - (k + (i + 1)) % sample_rate
        = (i - (k + (i + 1)) % sample_rate) + 1 := by omega
    rw [hsub, List.getElem?_cons_succ]
  · have hle : (k + (i + 1)) % sample_rate ≤ i + 1 := by
      rw [hmod]; exact Nat.mod_le _ _
    have heq : (k + (i + 1)) % sample_rate = i + 1 := by omega
    rw [if_neg hr, if_pos hle, heq]
    simp

theorem reuseSpec_cons_notdue {F Ov : Type} (proc : F → Ov)
    (sample_rate k : ℕ) (hsr : 1 ≤ sample_rate)
    (hk : k % sample_rate ≠ 0) (lo : Option Ov) (f : F) (rest : List F)
    (i : ℕ) :
    reuseSpec proc sample_rate (k + 1) lo rest i
      = reuseSpec proc sample_rate k lo (f :: rest) (i + 1) := by
  unfold reuseSpec
  have harr : k + 1 + i = k + (i + 1) := by omega
  rw [harr]
  have hdm := Nat.div_add_mod (k + (i + 1)) sample_rate
  by_cases hr : (k + (i + 1)) % sample_rate ≤ i
  · rw [if_pos hr, if_pos (by omega)]
    have hsub : i + 1 - (k + (i + 1)) % sample_rate
        = (i - (k + (i + 1)) % sample_rate) + 1 := by omega
    rw [hsub, List.getElem?_cons_succ]
  · by_cases hr1 : (k + (i + 1)) % sample_rate ≤ i + 1
    · exfalso
      have heq : (k + (i + 1)) % sample_rate = i + 1 := by omega
      have hq : k = sample_rate * ((k + (i + 1)) / sample_rate) := by omega
      have : k % sample_rate = 0 := by rw [hq]; exact Nat.mul_mod_right _ _
      exact hk this
    · rw [if_neg hr, if_neg hr1]


theorem videoLoop_spec {F Ov : Type} (proc : F → Ov) (sample_rate : ℕ)
    (hsr : 1 ≤ sample_rate) :
    ∀ (frames : List F) (k p : ℕ) (lo : Option Ov),
    ∃ (s' : VideoState Ov) (ws : List (F ⊕ Ov)),
      videoLoop (fun f => Except.ok (proc f)) sample_rate ⟨k, p, lo⟩ frames
        = .ok (s', ws) ∧
      s'.frame_count = k + frames.length ∧
      s'.processed_count
        = p + (List.range frames.length).countP
            (fun i => (k + i) % sample_rate == 0) ∧
      s'.last_overlay
        = (if frames.length = 0 then lo
           else reuseSpec proc sample_rate k lo frames (frames.length - 1)) ∧
      ws.length = frames.length ∧
      ∀ i, i < frames.length →
        ws[i]? = (match reuseSpec proc sample_rate k lo frames i with
                  | some ov => some (Sum.inr ov)
                  | none => (frames[i]?).map Sum.inl) := by
  intro frames
  induction frames with
  | nil =>
    intro k p lo
    refine ⟨⟨k, p, lo⟩, [], rfl, by simp, by simp, by simp, rfl, ?_⟩
    intro i hi
    simp at hi
  | cons f rest ih =>
    intro k p lo
    have hcountP : (List.range (rest.length + 1)).countP
          (fun i => (k + i) % sample_rate == 0)
        = (List.range rest.length).countP
            (fun i => (k + 1 + i) % sample_rate == 0)
          + (if (k % sample_rate == 0) then 1 else 0) := by
      rw [List.range_succ_eq_map, List.countP_cons, List.countP_map]
      have hcong : List.countP ((fun i => (k + i) % sample_rate == 0) ∘
          Nat.succ) (List.range rest.length)
          = List.countP (fun i => (k + 1 + i) % sample_rate == 0)
              (List.range rest.length) := by
        apply List.countP_congr
        intro a _
        simp only [Function.comp, Nat.succ_eq_add_one]
        have h : k + (a + 1) = k + 1 + a := by omega
        rw [h]
      rw [hcong]
      have hkz : ((k + 0) % sample_rate == 0) = (k % sample_rate == 0) := by
        norm_num
      rw [hkz]
    by_cases hk : k % sample_rate = 0
    · obtain ⟨s', ws, hrun, hfc, hpc, hlo, hlen, hcell⟩ :=
        ih (k + 1) (p + 1) (some (proc f))
      have h0 : reuseSpec proc sample_rate k lo (f :: rest) 0
          = some (proc f) := by
        simp [reuseSpec, hk]
      refine ⟨s', Sum.inr (proc f) :: ws, ?_, ?_, ?_, ?_, ?_, ?_⟩
      · simp only [videoLoop, videoStep, Nat.add_sub_cancel]
        rw [if_pos hk]
        simp only [hrun]
      · rw [hfc, List.length_cons]
        omega
      · rw [hpc, List.length_cons, hcountP]
        have hb : (k % sample_rate == 0) = true := by simp [hk]
        rw [hb]
        simp only [if_true]
        omega
      · rw [hlo]
        rcases rest with _ | ⟨g, gs⟩
        · simp only [List.length_nil, List.length_cons]
          rw [if_pos trivial, if_neg (by omega : ¬ (0 : ℕ) + 1 = 0)]
          exact h0.symm
        · rw [if_neg (by simp : ¬ (g :: gs).length = 0),
            if_neg (by simp : ¬ (f :: g :: gs).length = 0)]
          have h1 : (g :: gs).length - 1 = gs.length := by simp
          have h2 : (f :: g :: gs).length - 1 = gs.length + 1 := by simp
          rw [h1, h2]
          exact reuseSpec_cons_due proc sample_rate k hsr hk lo f (g :: gs)
            gs.length
      · rw [List.length_cons, List.length_cons, hlen]
      · intro i hi
        rcases i with _ | i
        · rw [List.getElem?_cons_zero, h0]
        · have hi' : i < rest.length := by
            simp only [List.length_cons] at hi
            omega
          rw [List.getElem?_cons_succ, hcell i hi',
            reuseSpec_cons_due proc sample_rate k hsr hk lo f]
          rcases reuseSpec proc sample_rate k lo (f :: rest) (i + 1) with _ | ov
          · simp only [List.getElem?_cons_succ]
          · rfl
    · obtain ⟨s', ws, hrun, hfc, hpc, hlo, hlen, hcell⟩ := ih (k + 1) p lo
      have h0 : reuseSpec proc sample_rate k lo (f :: rest) 0 = lo := by
        unfold reuseSpec
        rw [Nat.add_zero, if_neg (by omega)]
      refine ⟨s', writeFrame lo f :: ws, ?_, ?_, ?_, ?_, ?_, ?_⟩
      · simp only [videoLoop, videoStep, Nat.add_sub_cancel]
        rw [if_neg hk]
        simp only [hrun]
      · rw [hfc, List.length_cons]
        omega
      · rw [hpc, List.length_cons, hcountP]
        have hb : (k % sample_rate == 0) = false := by simp [hk]
        rw [hb]
        rw [if_neg (by simp : ¬ false = true)]
        omega
      · rw [hlo]
        rcases rest with _ | ⟨g, gs⟩
        · simp only [List.length_nil, List.length_cons]
          rw [if_pos trivial, if_neg (by omega : ¬ (0 : ℕ) + 1 = 0)]
          exact h0.symm
        · rw [if_neg (by simp : ¬ (g :: gs).length = 0),
            if_neg (by simp : ¬ (f :: g :: gs).length = 0)]
          have h1 : (g :: gs).length - 1 = gs.length := by simp
          have h2 : (f :: g :: gs).length - 1 = gs.length + 1 := by simp
          rw [h1, h2]
          exact reuseSpec_cons_notdue proc sample_rate k hsr hk lo f (g :: gs)
            gs.length
      · rw [List.length_cons, List.length_cons, hlen]
      · intro i hi
        rcases i with _ | i
        · rw [List.getElem?_cons_zero, h0]
          rcases lo with _ | ov
          · simp [writeFrame]
          · rfl
        · have hi' : i < rest.length := by
            simp only [List.length_cons] at hi
            omega
          rw [List.getElem?_cons_succ, hcell i hi',
            reuseSpec_cons_notdue proc sample_rate k hsr hk lo f]
          rcases reuseSpec proc sample_rate k lo (f :: rest) (i + 1) with _ | ov
          · simp only [List.getElem?_cons_succ]
          · rfl

theorem streamLoop_spec {F Ov P : Type} (proc : F → Ov) (enc : Ov → P)
    (sample_rate total_frames : ℕ) (hsr : 1 ≤ sample_rate) :
    ∀ (frames : List F) (k p : ℕ) (lo : Option Ov),
    (lo = none → k % sample_rate = 0) →
    ∃ (s' : VideoState Ov) (es : List (StreamEvent P)),
      streamLoop (fun f => Except.ok (proc f)) enc sample_rate total_frames
          ⟨k, p, lo⟩ frames = .ok (s', es) ∧
      s'.frame_count = k + frames.length ∧
      s'.processed_count
        = p + (List.range frames.length).countP
            (fun i => (k + i) % sample_rate == 0) ∧
      es.length = frames.length ∧
      ∀ i, i < frames.length →
        ∃ ov pc, reuseSpec proc sample_rate k lo frames i = some ov ∧
          es[i]? = some (.frame (k + i + 1) total_frames pc (enc ov)
            (((k + i + 1 : ℕ) : ℚ) / (total_frames : ℚ) * 100)) := by
  intro frames
  induction frames with
  | nil =>
    intro k p lo _
    refine ⟨⟨k, p, lo⟩, [], rfl, by simp, by simp, rfl, ?_⟩
    intro i hi
    simp at hi
  | cons f rest ih =>
    intro k p lo hlonone
    have hcountP : (List.range (rest.length + 1)).countP
          (fun i => (k + i) % sample_rate == 0)
        = (List.range rest.length).countP
            (fun i => (k + 1 + i) % sample_rate == 0)
          + (if (k % sample_rate == 0) then 1 else 0) := by
      rw [List.range_succ_eq_map, List.countP_cons, List.countP_map]
      have hcong : List.countP ((fun i => (k + i) % sample_rate == 0) ∘
          Nat.succ) (List.range rest.length)
          = List.countP (fun i => (k + 1 + i) % sample_rate == 0)
              (List.range rest.length) := by
        apply List.countP_congr
        intro a _
        simp only [Function.comp, Nat.succ_eq_add_one]
        have h : k + (a + 1) = k + 1 + a := by omega
        rw [h]
      rw [hcong]
      have hkz : ((k + 0) % sample_rate == 0) = (k % sample_rate == 0) := by
        norm_num
      rw [hkz]
    by_cases hk : k % sample_rate = 0
    · obtain ⟨s', es, hrun, hfc, hpc, hlen, hcell⟩ :=
        ih (k + 1) (p + 1) (some (proc f)) (by intro h; cases h)
      have h0 : reuseSpec proc sample_rate k lo (f :: rest) 0
          = some (proc f) := by
        simp [reuseSpec, hk]
      refine ⟨s', .frame (k + 1) total_frames (p + 1) (enc (proc f))
          (((k + 1 : ℕ) : ℚ) / (total_frames : ℚ) * 100) :: es, ?_, ?_, ?_, ?_, ?_⟩
      · simp only [streamLoop, streamStep, Nat.add_sub_cancel]
        rw [if_pos hk]
        simp only [hrun]
        rfl
      · rw [hfc, List.length_cons]
        omega
      · rw [hpc, List.length_cons, hcountP]
        have hb : (k % sample_rate == 0) = true := by simp [hk]
        rw [hb]
        simp only [if_true]
        omega
      · rw [List.length_cons, List.length_cons, hlen]
      · intro i hi
        rcases i with _ | i
        · exact ⟨proc f, p + 1, h0, by rw [List.getElem?_cons_zero]⟩
        · have hi' : i < rest.length := by
            simp only [List.length_cons] at hi
            omega
          obtain ⟨ov, pc, hov, hev⟩ := hcell i hi'
          refine ⟨ov, pc, ?_, ?_⟩
          · rw [← reuseSpec_cons_due proc sample_rate k hsr hk lo f]
            exact hov
          · rw [List.getElem?_cons_succ, hev]
            have harr : k + 1 + i + 1 = k + (i + 1) + 1 := by omega
            rw [harr]
    · rcases lo with _ | ov0
      · exact absurd (hlonone rfl) hk
      obtain ⟨s', es, hrun, hfc, hpc, hlen, hcell⟩ :=
        ih (k + 1) p (some ov0) (by intro h; cases h)
      have h0 : reuseSpec proc sample_rate k (some ov0) (f :: rest) 0
          = some ov0 := by
        unfold reuseSpec
        rw [Nat.add_zero, if_neg (by omega)]
      refine ⟨s', .frame (k + 1) total_frames p (enc ov0)
          (((k + 1 : ℕ) : ℚ) / (total_frames : ℚ) * 100) :: es, ?_, ?_, ?_, ?_, ?_⟩
      · simp only [streamLoop, streamStep, Nat.add_sub_cancel]
        rw [if_neg hk]
        simp only [hrun]
        rfl
      · rw [hfc, List.length_cons]
        omega
      · rw [hpc, List.length_cons, hcountP]
        have hb : (k % sample_rate == 0) = false := by simp [hk]
        rw [hb]
        rw [if_neg (by simp : ¬ false = true)]
        omega
      · rw [List.length_cons, List.length_cons, hlen]
      · intro i hi
        rcases i with _ | i
        · exact ⟨ov0, p, h0, by rw [List.getElem?_cons_zero]⟩
        · have hi' : i < rest.length := by
            simp only [List.length_cons] at hi
            omega
          obtain ⟨ov, pc, hov, hev⟩ := hcell i hi'
          refine ⟨ov, pc, ?_, ?_⟩
          · rw [← reuseSpec_cons_notdue proc sample_rate k hsr hk (some ov0) f]
            exact hov
          · rw [List.getElem?_cons_succ, hev]
            have harr : k + 1 + i + 1 = k + (i + 1) + 1 := by omega
            rw [harr]

theorem countP_range_mod (sample_rate : ℕ) (hsr : 1 ≤ sample_rate) (n : ℕ) :
    (List.range n).countP (fun i => (0 + i) % sample_rate == 0)
      = (n + sample_rate - 1) / sample_rate := by
  induction n with
  | zero =>
    simp only [List.range_zero, List.countP_nil]
    rw [Nat.div_eq_of_lt (show 0 + sample_rate - 1 < sample_rate by omega)]
  | succ m ihm =>
    rw [List.range_succ, List.countP_append, ihm, List.countP_cons,
      List.countP_nil]
    have hR : m + 1 + sample_rate - 1 = m + sample_rate := by omega
    rw [hR, Nat.add_div_right _ (by omega)]
    have hdm := Nat.div_add_mod m sample_rate
    have hmlt := Nat.mod_lt m (show 0 < sample_rate by omega)
    by_cases hm : m % sample_rate = 0
    · have hb : ((0 + m) % sample_rate == 0) = true := by simp [hm]
      rw [hb]
      simp only [if_true]
      have hq : m + sample_rate - 1
          = sample_rate * (m / sample_rate) + (sample_rate - 1) := by omega
      rw [hq, Nat.mul_add_div (by omega),
        Nat.div_eq_of_lt (show sample_rate - 1 < sample_rate by omega)]
      try omega
    · have hb : ((0 + m) % sample_rate == 0) = false := by simp [hm]
      rw [hb]
      rw [if_neg (by simp : ¬ false = true)]
      have hq : m + sample_rate - 1
          = sample_rate * (m / sample_rate + 1) + (m % sample_rate - 1) := by
        rw [Nat.mul_succ]
        omega
      rw [hq, Nat.mul_add_div (by omega),
        Nat.div_eq_of_lt (show m % sample_rate - 1 < sample_rate by omega)]
      try omega

theorem ceil_div_cast (n sample_rate : ℕ) (hsr : 1 ≤ sample_rate) :
    ⌈(n : ℚ) / (sample_rate : ℚ)⌉
      = (((n + sample_rate - 1) / sample_rate : ℕ) : ℤ) := by
  have hpos : (0 : ℚ) < (sample_rate : ℚ) := by
    exact_mod_cast (show 0 < sample_rate by omega)
  have hdm := Nat.div_add_mod (n + sample_rate - 1) sample_rate
  have hmlt := Nat.mod_lt (n + sample_rate - 1)
    (show 0 < sample_rate by omega)
  set m := (n + sample_rate - 1) / sample_rate with hm
  have h1 : n ≤ sample_rate * m := by omega
  have h2 : sample_rate * m < n + sample_rate := by omega
  rw [Int.ceil_eq_iff]
  constructor
  · rw [lt_div_iff₀ hpos]
    have hc : (n : ℚ) + sample_rate > (sample_rate : ℚ) * m := by
      exact_mod_cast h2
    have hr : (((m : ℕ) : ℤ) : ℚ) - 1 = (m : ℚ) - 1 := by push_cast; ring
    rw [hr]
    nlinarith [hc]
  · rw [div_le_iff₀ hpos]
    have hc : (n : ℚ) ≤ (sample_rate : ℚ) * m := by exact_mod_cast h1
    push_cast
    nlinarith [hc]

/-- C1: for every video with at least one decodable frame and every
`sample_rate` in [1, 30], each iteration of the frame loop increments the
frame counter; it runs the inference chain exactly when
`(frame_index - 1) % sample_rate == 0`, incrementing `processed_count` and
replacing `last_overlay`, and otherwise reuses `last_overlay` unchanged;
and at loop exit `processed_count = ⌈total_frame_count / sample_rate⌉`
(equivalently `(total + sample_rate - 1) / sample_rate`). -/
theorem C1_sampling_and_processed_count {F Ov : Type} (proc : F → Ov)
    (sample_rate : ℕ) (frames : List F) (hsr1 : 1 ≤ sample_rate)
    (hsr30 : sample_rate ≤ 30) (hne : 1 ≤ frames.length) :
    (∀ (s : VideoState Ov) (f : F),
      (s.frame_count % sample_rate = 0 →
        videoStep (fun f => Except.ok (proc f)) sample_rate s f
          = .ok (⟨s.frame_count + 1, s.processed_count + 1, some (proc f)⟩,
                 Sum.inr (proc f))) ∧
      (s.frame_count % sample_rate ≠ 0 →
        videoStep (fun f => Except.ok (proc f)) sample_rate s f
          = .ok (⟨s.frame_count + 1, s.processed_count, s.last_overlay⟩,
                 writeFrame s.last_overlay f))) ∧
    ∃ (s' : VideoState Ov) (ws : List (F ⊕ Ov)),
      create_video_with_overlay (fun f => Except.ok (proc f)) sample_rate
          frames = .ok (s', ws) ∧
      s'.frame_count = frames.length ∧
      (s'.processed_count : ℤ)
        = ⌈(frames.length : ℚ) / (sample_rate : ℚ)⌉ ∧
      s'.processed_count = (frames.length + sample_rate - 1) / sample_rate := by
  constructor
  · intro s f
    constructor
    · intro h
      simp only [videoStep, Nat.add_sub_cancel]
      rw [if_pos h]
    · intro h
      simp only [videoStep, Nat.add_sub_cancel]
      rw [if_neg h]
  · obtain ⟨s', ws, hrun, hfc, hpc, hlo, hlen, hcell⟩ :=
      videoLoop_spec proc sample_rate hsr1 frames 0 0 none
    have h1 := countP_range_mod sample_rate hsr1 frames.length
    refine ⟨s', ws, hrun, ?_, ?_, ?_⟩
    · rw [hfc]
      omega
    · rw [hpc, ceil_div_cast frames.length sample_rate hsr1, Nat.zero_add, h1]
    · rw [hpc, Nat.zero_add, h1]

theorem C1_witness :
    ((1 : ℕ) ≤ 2 ∧ (2 : ℕ) ≤ 30 ∧ 1 ≤ ([10, 20, 30] : List ℕ).length) ∧
    ((∀ (s : VideoState ℕ) (f : ℕ),
      (s.frame_count % 2 = 0 →
        videoStep (fun f => Except.ok ((fun n : ℕ => n * 7) f)) 2 s f
          = .ok (⟨s.frame_count + 1, s.processed_count + 1,
                  some ((fun n : ℕ => n * 7) f)⟩,
                 Sum.inr ((fun n : ℕ => n * 7) f))) ∧
      (s.frame_count % 2 ≠ 0 →
        videoStep (fun f => Except.ok ((fun n : ℕ => n * 7) f)) 2 s f
          = .ok (⟨s.frame_count + 1, s.processed_count, s.last_overlay⟩,
                 writeFrame s.last_overlay f))) ∧
    ∃ (s' : VideoState ℕ) (ws : List (ℕ ⊕ ℕ)),
      create_video_with_overlay (fun f => Except.ok ((fun n : ℕ => n * 7) f)) 2
          ([10, 20, 30] : List ℕ) = .ok (s', ws) ∧
      s'.frame_count = ([10, 20, 30] : List ℕ).length ∧
      (s'.processed_count : ℤ)
        = ⌈(([10, 20, 30] : List ℕ).length : ℚ) / ((2 : ℕ) : ℚ)⌉ ∧
      s'.processed_count
        = (([10, 20, 30] : List ℕ).length + 2 - 1) / 2) :=
  ⟨⟨by decide, by decide, by decide⟩,
   C1_sampling_and_processed_count (fun n : ℕ => n * 7) 2 [10, 20, 30]
     (by decide) (by decide) (by decide)⟩

/-- C6: at both video endpoints the caller-supplied `sample_rate` is
clamped into [1, 30]: 0, -5 and 1000 normalise to 1, 1 and 30, any value
already in range is unchanged, and the clamped value always lies in
[1, 30]. -/
theorem C6_sample_rate_clamped :
    segment_video_sample_rate 0 = 1 ∧
    segment_video_sample_rate (-5) = 1 ∧
    segment_video_sample_rate 1000 = 30 ∧
    segment_video_stream_sample_rate 0 = 1 ∧
    segment_video_stream_sample_rate (-5) = 1 ∧
    segment_video_stream_sample_rate 1000 = 30 ∧
    (∀ sr : ℤ, 1 ≤ sr → sr ≤ 30 →
      segment_video_sample_rate sr = sr ∧
      segment_video_stream_sample_rate sr = sr) ∧
    (∀ sr : ℤ, 1 ≤ segment_video_sample_rate sr ∧
      segment_video_sample_rate sr ≤ 30 ∧
      1 ≤ segment_video_stream_sample_rate sr ∧
      segment_video_stream_sample_rate sr ≤ 30) := by
  refine ⟨by decide, by decide, by decide, by decide, by decide, by decide,
    ?_, ?_⟩
  · intro sr h1 h30
    unfold segment_video_sample_rate segment_video_stream_sample_rate
    constructor <;> omega
  · intro sr
    unfold segment_video_sample_rate segment_video_stream_sample_rate
    refine ⟨?_, ?_, ?_, ?_⟩ <;> omega

theorem C6_witness :
    ((1 : ℤ) ≤ 15 ∧ (15 : ℤ) ≤ 30) ∧
    (segment_video_sample_rate 15 = 15 ∧
     segment_video_stream_sample_rate 15 = 15) :=
  ⟨⟨by decide, by decide⟩,
   C6_sample_rate_clamped.2.2.2.2.2.2.1 15 (by decide) (by decide)⟩

theorem reuseSpec_zero {F Ov : Type} (proc : F → Ov) (sample_rate : ℕ)
    (lo : Option Ov) (frames : List F) (i : ℕ) :
    reuseSpec proc sample_rate 0 lo frames i
      = (frames[i - i % sample_rate]?).map proc := by
  unfold reuseSpec
  rw [Nat.zero_add, if_pos (Nat.mod_le i sample_rate)]

/-- C2: for every frame position `i` that is not due
(`(frame_index - 1) % sample_rate ≠ 0`, i.e. `i % sample_rate ≠ 0` with
0-based `i`), the overlay written to the batch video and the overlay
carried by the streaming frame event both equal, bit for bit, the overlay
computed for the most recent due frame (position `i - i % sample_rate`). -/
theorem C2_reuse_bit_identical {F Ov P : Type} (proc : F → Ov) (enc : Ov → P)
    (sample_rate : ℕ) (frames : List F) (hsr : 1 ≤ sample_rate) (i : ℕ)
    (hi : i < frames.length) (hnotdue : i % sample_rate ≠ 0) :
    ∃ (ov : Ov) (s1 : VideoState Ov) (ws : List (F ⊕ Ov))
      (s2 : VideoState Ov) (es : List (StreamEvent P)),
      (frames[i - i % sample_rate]?).map proc = some ov ∧
      create_video_with_overlay (fun f => Except.ok (proc f)) sample_rate
        frames = .ok (s1, ws) ∧
      ws[i]? = some (Sum.inr ov) ∧
      ws[i - i % sample_rate]? = some (Sum.inr ov) ∧
      streamLoop (fun f => Except.ok (proc f)) enc sample_rate frames.length
        ⟨0, 0, none⟩ frames = .ok (s2, es) ∧
      (∃ pc, es[i]? = some (.frame (i + 1) frames.length pc (enc ov)
        (((i + 1 : ℕ) : ℚ) / (frames.length : ℚ) * 100))) ∧
      (∃ pc, es[i - i % sample_rate]?
        = some (.frame (i - i % sample_rate + 1) frames.length pc (enc ov)
            (((i - i % sample_rate + 1 : ℕ) : ℚ)
              / (frames.length : ℚ) * 100))) := by
  obtain ⟨s1, ws, hrun, hfc, hpc, hlo, hlen, hcell⟩ :=
    videoLoop_spec proc sample_rate hsr frames 0 0 none
  obtain ⟨s2, es, hrun2, hfc2, hpc2, hlen2, hcell2⟩ :=
    streamLoop_spec proc enc sample_rate frames.length hsr frames 0 0 none
      (fun _ => Nat.zero_mod _)
  have hjle : i - i % sample_rate ≤ i := Nat.sub_le _ _
  have hjlt : i - i % sample_rate < frames.length := lt_of_le_of_lt hjle hi
  have hjmul : i - i % sample_rate = sample_rate * (i / sample_rate) := by
    have := Nat.div_add_mod i sample_rate
    omega
  have hjmod : (i - i % sample_rate) % sample_rate = 0 := by
    rw [hjmul]
    exact Nat.mul_mod_right _ _
  have hjj : i - i % sample_rate
      - (i - i % sample_rate) % sample_rate = i - i % sample_rate := by
    rw [hjmod]
    omega
  have hfj : frames[i - i % sample_rate]?
      = some (frames[i - i % sample_rate]) := List.getElem?_eq_getElem hjlt
  refine ⟨proc (frames[i - i % sample_rate]), s1, ws, s2, es, ?_, hrun,
    ?_, ?_, hrun2, ?_, ?_⟩
  · rw [hfj]
    rfl
  · rw [hcell i hi, reuseSpec_zero, hfj]
    rfl
  · rw [hcell (i - i % sample_rate) hjlt, reuseSpec_zero, hjj, hfj]
    rfl
  · obtain ⟨ov, pc, hov, hev⟩ := hcell2 i hi
    rw [reuseSpec_zero, hfj] at hov
    have hov' : proc (frames[i - i % sample_rate]) = ov :=
      Option.some.inj hov
    have hidx : 0 + i + 1 = i + 1 := by omega
    rw [hidx] at hev
    exact ⟨pc, by rw [hev, hov']⟩
  · obtain ⟨ov, pc, hov, hev⟩ := hcell2 (i - i % sample_rate) hjlt
    rw [reuseSpec_zero, hjj, hfj] at hov
    have hov' : proc (frames[i - i % sample_rate]) = ov :=
      Option.some.inj hov
    have hidx : 0 + (i - i % sample_rate) + 1 = i - i % sample_rate + 1 := by
      omega
    rw [hidx] at hev
    exact ⟨pc, by rw [hev, hov']⟩

theorem C2_witness :
    ((1 : ℕ) ≤ 2 ∧ (3 : ℕ) < ([10, 20, 30, 40] : List ℕ).length ∧
      (3 : ℕ) % 2 ≠ 0) ∧
    (∃ (ov : ℕ) (s1 : VideoState ℕ) (ws : List (ℕ ⊕ ℕ))
      (s2 : VideoState ℕ) (es : List (StreamEvent ℕ)),
      (([10, 20, 30, 40] : List ℕ)[3 - 3 % 2]?).map (fun n : ℕ => n + 1)
        = some ov ∧
      create_video_with_overlay
          (fun f => Except.ok ((fun n : ℕ => n + 1) f)) 2
          ([10, 20, 30, 40] : List ℕ) = .ok (s1, ws) ∧
      ws[3]? = some (Sum.inr ov) ∧
      ws[3 - 3 % 2]? = some (Sum.inr ov) ∧
      streamLoop (fun f => Except.ok ((fun n : ℕ => n + 1) f))
          (fun n : ℕ => n * 2) 2 ([10, 20, 30, 40] : List ℕ).length
          ⟨0, 0, none⟩ ([10, 20, 30, 40] : List ℕ) = .ok (s2, es) ∧
      (∃ pc, es[3]? = some (.frame (3 + 1) ([10, 20, 30, 40] : List ℕ).length
        pc ((fun n : ℕ => n * 2) ov)
        (((3 + 1 : ℕ) : ℚ) / ((([10, 20, 30, 40] : List ℕ).length : ℕ) : ℚ)
          * 100))) ∧
      (∃ pc, es[3 - 3 % 2]?
        = some (.frame (3 - 3 % 2 + 1) ([10, 20, 30, 40] : List ℕ).length pc
            ((fun n : ℕ => n * 2) ov)
            (((3 - 3 % 2 + 1 : ℕ) : ℚ)
              / ((([10, 20, 30, 40] : List ℕ).length : ℕ) : ℚ) * 100)))) :=
  ⟨⟨by decide, by decide, by decide⟩,
   C2_reuse_bit_identical (fun n : ℕ => n + 1) (fun n : ℕ => n * 2) 2
     [10, 20, 30, 40] (by decide) 3 (by decide) (by decide)⟩

/-- C9: for every `sample_rate ≥ 1` the first decoded frame is due
(`(1 - 1) % sample_rate = 0`), so `last_overlay` is set from the first
iteration onward; the fallback branch writing the original frame verbatim
is never taken; for a non-empty video `processed_count ≥ 1` and the final
`last_overlay` is set; and the streaming sink emits exactly one frame event
per decoded input frame. -/
theorem C9_first_frame_due_no_fallback {F Ov P : Type} (proc : F → Ov)
    (enc : Ov → P) (sample_rate : ℕ) (frames : List F)
    (hsr : 1 ≤ sample_rate) :
    (1 - 1) % sample_rate = 0 ∧
    ∃ (s1 : VideoState Ov) (ws : List (F ⊕ Ov)) (s2 : VideoState Ov)
      (es : List (StreamEvent P)),
      create_video_with_overlay (fun f => Except.ok (proc f)) sample_rate
        frames = .ok (s1, ws) ∧
      (∀ (i : ℕ) (w : F ⊕ Ov), ws[i]? = some w → ∃ ov, w = Sum.inr ov) ∧
      (1 ≤ frames.length →
        1 ≤ s1.processed_count ∧ s1.last_overlay ≠ none) ∧
      streamLoop (fun f => Except.ok (proc f)) enc sample_rate frames.length
        ⟨0, 0, none⟩ frames = .ok (s2, es) ∧
      es.length = frames.length ∧
      (∀ i, i < frames.length → ∃ ov pc,
        es[i]? = some (.frame (i + 1) frames.length pc (enc ov)
          (((i + 1 : ℕ) : ℚ) / (frames.length : ℚ) * 100))) := by
  obtain ⟨s1, ws, hrun, hfc, hpc, hlo, hlen, hcell⟩ :=
    videoLoop_spec proc sample_rate hsr frames 0 0 none
  obtain ⟨s2, es, hrun2, hfc2, hpc2, hlen2, hcell2⟩ :=
    streamLoop_spec proc enc sample_rate frames.length hsr frames 0 0 none
      (fun _ => Nat.zero_mod _)
  refine ⟨Nat.zero_mod _, s1, ws, s2, es, hrun, ?_, ?_, hrun2, hlen2, ?_⟩
  · intro i w hw
    by_cases hilen : i < frames.length
    · have hjlt : i - i % sample_rate < frames.length :=
        lt_of_le_of_lt (Nat.sub_le _ _) hilen
      have hfj : frames[i - i % sample_rate]?
          = some (frames[i - i % sample_rate]) := List.getElem?_eq_getElem hjlt
      have hval : ws[i]?
          = some (Sum.inr (proc (frames[i - i % sample_rate]))) := by
        rw [hcell i hilen, reuseSpec_zero, hfj]
        rfl
      rw [hval] at hw
      exact ⟨proc (frames[i - i % sample_rate]), (Option.some.inj hw).symm⟩
    · rw [List.getElem?_eq_none (by omega : ws.length ≤ i)] at hw
      cases hw
  · intro hne
    constructor
    · rw [hpc, Nat.zero_add, countP_range_mod sample_rate hsr,
        Nat.one_le_div_iff (by omega)]
      omega
    · rw [hlo, if_neg (by omega : ¬ frames.length = 0), reuseSpec_zero]
      have hlt : frames.length - 1
          - (frames.length - 1) % sample_rate < frames.length := by
        have := Nat.sub_le (frames.length - 1)
          ((frames.length - 1) % sample_rate)
        omega
      rw [List.getElem?_eq_getElem hlt]
      simp
  · intro i hi
    obtain ⟨ov, pc, hov, hev⟩ := hcell2 i hi
    have hidx : 0 + i + 1 = i + 1 := by omega
    rw [hidx] at hev
    exact ⟨ov, pc, hev⟩

theorem C9_witness :
    ((1 : ℕ) ≤ 3) ∧
    ((1 - 1) % 3 = 0 ∧
    ∃ (s1 : VideoState ℕ) (ws : List (ℕ ⊕ ℕ)) (s2 : VideoState ℕ)
      (es : List (StreamEvent ℕ)),
      create_video_with_overlay
        (fun f => Except.ok ((fun n : ℕ => n * 5) f)) 3
        ([4, 5, 6, 7] : List ℕ) = .ok (s1, ws) ∧
      (∀ (i : ℕ) (w : ℕ ⊕ ℕ), ws[i]? = some w → ∃ ov, w = Sum.inr ov) ∧
      (1 ≤ ([4, 5, 6, 7] : List ℕ).length →
        1 ≤ s1.processed_count ∧ s1.last_overlay ≠ none) ∧
      streamLoop (fun f => Except.ok ((fun n : ℕ => n * 5) f))
        (fun n : ℕ => n + 9) 3 ([4, 5, 6, 7] : List ℕ).length
        ⟨0, 0, none⟩ ([4, 5, 6, 7] : List ℕ) = .ok (s2, es) ∧
      es.length = ([4, 5, 6, 7] : List ℕ).length ∧
      (∀ i, i < ([4, 5, 6, 7] : List ℕ).length → ∃ ov pc,
        es[i]? = some (.frame (i + 1) ([4, 5, 6, 7] : List ℕ).length pc
          ((fun n : ℕ => n + 9) ov)
          (((i + 1 : ℕ) : ℚ)
            / ((([4, 5, 6, 7] : List ℕ).length : ℕ) : ℚ) * 100)))) :=
  ⟨by decide,
   C9_first_frame_due_no_fallback (fun n : ℕ => n * 5) (fun n : ℕ => n + 9) 3
     [4, 5, 6, 7] (by decide)⟩

/-- C5: the streaming sink's event sequence is exactly one metadata event,
then frame events with strictly increasing `frame_index` (the event at
position `i` carries `frame_index = i + 1`), then exactly one complete
event; for a video yielding no decodable frames the sequence is exactly
[metadata, complete] with zero frame events, and no failure. -/
theorem C5_stream_event_order {F Ov P : Type} (proc : F → Ov) (enc : Ov → P)
    (sample_rate : ℕ) (fps : ℚ) (width height : ℕ) (frames : List F)
    (hsr : 1 ≤ sample_rate) :
    ∃ es : List (StreamEvent P),
      stream_video_segmentation (fun f => Except.ok (proc f)) enc sample_rate
          fps width height frames
        = .ok (StreamEvent.metadata fps frames.length width height sample_rate
            :: es ++ [StreamEvent.complete frames.length
                ((frames.length + sample_rate - 1) / sample_rate)]) ∧
      es.length = frames.length ∧
      (∀ e ∈ es, ∃ i tf pc d pr, e = StreamEvent.frame i tf pc d pr) ∧
      es.map StreamEvent.frameIndex?
        = (List.range frames.length).map (fun i => some (i + 1)) ∧
      (frames = [] →
        stream_video_segmentation (fun f => Except.ok (proc f)) enc
            sample_rate fps width height frames
          = .ok [StreamEvent.metadata fps 0 width height sample_rate,
                 StreamEvent.complete 0 0]) := by
  obtain ⟨s2, es, hrun2, hfc2, hpc2, hlen2, hcell2⟩ :=
    streamLoop_spec proc enc sample_rate frames.length hsr frames 0 0 none
      (fun _ => Nat.zero_mod _)
  have hfc' : s2.frame_count = frames.length := by
    rw [hfc2]
    omega
  have hpc' : s2.processed_count
      = (frames.length + sample_rate - 1) / sample_rate := by
    rw [hpc2, Nat.zero_add, countP_range_mod sample_rate hsr]
  have hevn : ∀ n, n < frames.length → ∃ ov pc,
      es[n]? = some (.frame (n + 1) frames.length pc (enc ov)
        (((n + 1 : ℕ) : ℚ) / (frames.length : ℚ) * 100)) := by
    intro n hn
    obtain ⟨ov, pc, _, hev⟩ := hcell2 n hn
    have hidx : 0 + n + 1 = n + 1 := by omega
    rw [hidx] at hev
    exact ⟨ov, pc, hev⟩
  have hmain : stream_video_segmentation (fun f => Except.ok (proc f)) enc
      sample_rate fps width height frames
      = .ok (StreamEvent.metadata fps frames.length width height sample_rate
          :: es ++ [StreamEvent.complete frames.length
              ((frames.length + sample_rate - 1) / sample_rate)]) := by
    simp only [stream_video_segmentation, hrun2]
    rw [hfc', hpc']
  refine ⟨es, hmain, hlen2, ?_, ?_, ?_⟩
  · intro e he
    obtain ⟨n, hn, hv⟩ := List.getElem_of_mem he
    obtain ⟨ov, pc, hev⟩ := hevn n (by omega)
    rw [List.getElem?_eq_getElem hn, hv] at hev
    exact ⟨n + 1, frames.length, pc, enc ov, _, Option.some.inj hev⟩
  · apply List.ext_getElem?
    intro n
    rw [List.getElem?_map, List.getElem?_map]
    by_cases hn : n < frames.length
    · obtain ⟨ov, pc, hev⟩ := hevn n hn
      rw [hev, List.getElem?_range hn]
      rfl
    · rw [List.getElem?_eq_none (by omega : es.length ≤ n),
        List.getElem?_eq_none (by simpa using by omega : (List.range frames.length).length ≤ n)]
      rfl
  · intro hnil
    subst hnil
    have hes : es = [] := List.eq_nil_of_length_eq_zero (by simpa using hlen2)
    subst hes
    simp only [List.length_nil] at hmain
    rw [hmain]
    have hdiv : (0 + sample_rate - 1) / sample_rate = 0 :=
      Nat.div_eq_of_lt (by omega)
    rw [hdiv]
    rfl

theorem C5_witness :
    ((1 : ℕ) ≤ 2) ∧
    (∃ es : List (StreamEvent ℕ),
      stream_video_segmentation (fun f => Except.ok ((fun n : ℕ => n * 3) f))
          (fun n : ℕ => n + 1) 2 (30 : ℚ) 64 48 ([7, 8, 9] : List ℕ)
        = .ok (StreamEvent.metadata 30 ([7, 8, 9] : List ℕ).length 64 48 2
            :: es ++ [StreamEvent.complete ([7, 8, 9] : List ℕ).length
                ((([7, 8, 9] : List ℕ).length + 2 - 1) / 2)]) ∧
      es.length = ([7, 8, 9] : List ℕ).length ∧
      (∀ e ∈ es, ∃ i tf pc d pr, e = StreamEvent.frame i tf pc d pr) ∧
      es.map StreamEvent.frameIndex?
        = (List.range ([7, 8, 9] : List ℕ).length).map (fun i => some (i + 1)) ∧
      (([7, 8, 9] : List ℕ) = [] →
        stream_video_segmentation (fun f => Except.ok ((fun n : ℕ => n * 3) f))
            (fun n : ℕ => n + 1) 2 (30 : ℚ) 64 48 ([7, 8, 9] : List ℕ)
          = .ok [StreamEvent.metadata 30 0 64 48 2,
                 StreamEvent.complete 0 0])) :=
  ⟨by decide,
   C5_stream_event_order (fun n : ℕ => n * 3) (fun n : ℕ => n + 1) 2 30 64 48
     [7, 8, 9] (by decide)⟩

/-- C10: the two sinks run the very same per-frame chain (the inline
encode→infer→decode→colorize→blend code of `create_video_with_overlay` and
of `stream_video_segmentation` define the same function), and on the same
chain output, sample rate and frame list the batch sink's written frame at
position `i` carries exactly the overlay whose encoding the streaming frame
event at position `i` (with `frame_index = i + 1`) carries; the final
frame and processed counters also agree. -/
theorem C10_batch_stream_equivalence {F Ov P : Type} (E : Externals F)
    (cfg : ModelConfig) (proc : F → Ov) (enc : Ov → P) (sample_rate : ℕ)
    (frames : List F) (hsr : 1 ≤ sample_rate) :
    video_frame_overlay E cfg = stream_frame_overlay E cfg ∧
    ∃ (s1 : VideoState Ov) (ws : List (F ⊕ Ov)) (s2 : VideoState Ov)
      (es : List (StreamEvent P)),
      create_video_with_overlay (fun f => Except.ok (proc f)) sample_rate
        frames = .ok (s1, ws) ∧
      streamLoop (fun f => Except.ok (proc f)) enc sample_rate frames.length
        ⟨0, 0, none⟩ frames = .ok (s2, es) ∧
      ws.length = frames.length ∧
      es.length = frames.length ∧
      s1.frame_count = s2.frame_count ∧
      s1.processed_count = s2.processed_count ∧
      (∀ i, i < frames.length → ∃ ov pc,
        ws[i]? = some (Sum.inr ov) ∧
        es[i]? = some (StreamEvent.frame (i + 1) frames.length pc (enc ov)
          (((i + 1 : ℕ) : ℚ) / (frames.length : ℚ) * 100))) := by
  obtain ⟨s1, ws, hrun, hfc, hpc, hlo, hlen, hcell⟩ :=
    videoLoop_spec proc sample_rate hsr frames 0 0 none
  obtain ⟨s2, es, hrun2, hfc2, hpc2, hlen2, hcell2⟩ :=
    streamLoop_spec proc enc sample_rate frames.length hsr frames 0 0 none
      (fun _ => Nat.zero_mod _)
  refine ⟨rfl, s1, ws, s2, es, hrun, hrun2, hlen, hlen2, ?_, ?_, ?_⟩
  · rw [hfc, hfc2]
  · rw [hpc, hpc2]
  · intro i hi
    obtain ⟨ov, pc, hov, hev⟩ := hcell2 i hi
    have hidx : 0 + i + 1 = i + 1 := by omega
    rw [hidx] at hev
    refine ⟨ov, pc, ?_, hev⟩
    rw [hcell i hi, hov]

theorem C10_witness :
    ((1 : ℕ) ≤ 2) ∧
    (video_frame_overlay
        (⟨fun n : ℕ => [[(n, n, n)]], id, fun img _ _ => img, fun a _ => a,
          fun _ => [NDArray.arr [NDArray.arr [NDArray.arr [NDArray.val 1]]]]⟩ :
          Externals ℕ)
        ⟨64, false, none, none, ModelType.segformer, 4⟩
      = stream_frame_overlay
        (⟨fun n : ℕ => [[(n, n, n)]], id, fun img _ _ => img, fun a _ => a,
          fun _ => [NDArray.arr [NDArray.arr [NDArray.arr [NDArray.val 1]]]]⟩ :
          Externals ℕ)
        ⟨64, false, none, none, ModelType.segformer, 4⟩ ∧
    ∃ (s1 : VideoState ℕ) (ws : List (ℕ ⊕ ℕ)) (s2 : VideoState ℕ)
      (es : List (StreamEvent ℕ)),
      create_video_with_overlay (fun f => Except.ok ((fun n : ℕ => n * 2) f))
        2 ([1, 2, 3] : List ℕ) = .ok (s1, ws) ∧
      streamLoop (fun f => Except.ok ((fun n : ℕ => n * 2) f))
        (fun n : ℕ => n + 4) 2 ([1, 2, 3] : List ℕ).length
        ⟨0, 0, none⟩ ([1, 2, 3] : List ℕ) = .ok (s2, es) ∧
      ws.length = ([1, 2, 3] : List ℕ).length ∧
      es.length = ([1, 2, 3] : List ℕ).length ∧
      s1.frame_count = s2.frame_count ∧
      s1.processed_count = s2.processed_count ∧
      (∀ i, i < ([1, 2, 3] : List ℕ).length → ∃ ov pc,
        ws[i]? = some (Sum.inr ov) ∧
        es[i]? = some (StreamEvent.frame (i + 1) ([1, 2, 3] : List ℕ).length
          pc ((fun n : ℕ => n + 4) ov)
          (((i + 1 : ℕ) : ℚ)
            / ((([1, 2, 3] : List ℕ).length : ℕ) : ℚ) * 100)))) :=
  ⟨by decide,
   C10_batch_stream_equivalence
     (⟨fun n : ℕ => [[(n, n, n)]], id, fun img _ _ => img, fun a _ => a,
       fun _ => [NDArray.arr [NDArray.arr [NDArray.arr [NDArray.val 1]]]]⟩ :
       Externals ℕ)
     ⟨64, false, none, none, ModelType.segformer, 4⟩
     (fun n : ℕ => n * 2) (fun n : ℕ => n + 4) 2 [1, 2, 3] (by decide)⟩

theorem getElem?_zipWith {α β γ : Type} (f : α → β → γ) (as : List α)
    (bs : List β) (n : ℕ) :
    (List.zipWith f as bs)[n]? =
      match as[n]?, bs[n]? with
      | some a, some b => some (f a b)
      | some _, none => none
      | none, some _ => none
      | none, none => none := by
  induction as generalizing bs n with
  | nil =>
    cases h : bs[n]? <;> simp
  | cons a as ih =>
    cases bs with
    | nil =>
      simp only [List.zipWith_nil_right]
      cases h : (a :: as)[n]? <;> simp
    | cons b bs =>
      cases n with
      | zero => simp
      | succ n =>
        simp only [List.zipWith_cons_cons, List.getElem?_cons_succ]
        exact ih bs n

theorem getElem?_zip {α β : Type} (as : List α) (bs : List β) (n : ℕ) :
    (as.zip bs)[n]? =
      match as[n]?, bs[n]? with
      | some a, some b => some (a, b)
      | some _, none => none
      | none, some _ => none
      | none, none => none :=
  getElem?_zipWith Prod.mk as bs n

/-- C3: `create_overlay` resizes the original frame to the colour mask's
resolution, then sets every pixel where the class grid is non-zero to the
uint8 truncation of `(1 - alpha) * original + alpha * color` and copies
every pixel where the grid is zero unchanged from the resized original, so
`overlay[grid == 0] = resized_original[grid == 0]` pixelwise. -/
theorem C3_blend_background_preserved
    (resize : ImageT → ℕ → ℕ → ImageT) (original_image color_mask : ImageT)
    (mask : MaskT) (alpha : ℚ) (i j : ℕ) (o c : RGB) (m : ℕ)
    (ho : cell? (resize original_image (imgWidth color_mask)
        (imgHeight color_mask)) i j = some o)
    (hc : cell? color_mask i j = some c)
    (hm : cell? mask i j = some m) :
    cell? (create_overlay resize original_image color_mask mask alpha) i j
      = some (if 0 < m then blendPixel alpha o c else o) ∧
    (m = 0 →
      cell? (create_overlay resize original_image color_mask mask alpha) i j
        = cell? (resize original_image (imgWidth color_mask)
            (imgHeight color_mask)) i j) := by
  unfold cell? at ho hc hm
  obtain ⟨orow, horow, hoj⟩ : ∃ r,
      (resize original_image (imgWidth color_mask)
        (imgHeight color_mask))[i]? = some r ∧ r[j]? = some o := by
    cases h : (resize original_image (imgWidth color_mask)
        (imgHeight color_mask))[i]? with
    | none => rw [h] at ho; cases ho
    | some r => rw [h] at ho; exact ⟨r, rfl, ho⟩
  obtain ⟨crow, hcrow, hcj⟩ : ∃ r,
      color_mask[i]? = some r ∧ r[j]? = some c := by
    cases h : color_mask[i]? with
    | none => rw [h] at hc; cases hc
    | some r => rw [h] at hc; exact ⟨r, rfl, hc⟩
  obtain ⟨mrow, hmrow, hmj⟩ : ∃ r,
      mask[i]? = some r ∧ r[j]? = some m := by
    cases h : mask[i]? with
    | none => rw [h] at hm; cases hm
    | some r => rw [h] at hm; exact ⟨r, rfl, hm⟩
  have hrow : (create_overlay resize original_image color_mask mask alpha)[i]?
      = some (List.zipWith (fun (po : RGB) (cp : RGB × ℕ) =>
          if 0 < cp.2 then blendPixel alpha po cp.1 else po)
          orow (crow.zip mrow)) := by
    simp only [create_overlay]
    rw [getElem?_zipWith, horow, getElem?_zip, hcrow, hmrow]
  have hcellval : cell?
      (create_overlay resize original_image color_mask mask alpha) i j
      = some (if 0 < m then blendPixel alpha o c else o) := by
    unfold cell?
    rw [hrow, Option.some_bind, getElem?_zipWith, hoj, getElem?_zip, hcj, hmj]
  refine ⟨hcellval, ?_⟩
  intro hm0
  subst hm0
  rw [hcellval, if_neg (by omega)]
  unfold cell?
  rw [horow, Option.some_bind, hoj]

theorem C3_witness :
    (cell? ((fun img _ _ => img) ([[(9, 9, 9), (100, 50, 0)]] : ImageT)
        (imgWidth ([[(255, 0, 0), (0, 0, 255)]] : ImageT))
        (imgHeight ([[(255, 0, 0), (0, 0, 255)]] : ImageT))) 0 1
      = some ((100, 50, 0) : RGB) ∧
     cell? ([[(255, 0, 0), (0, 0, 255)]] : ImageT) 0 1
      = some ((0, 0, 255) : RGB) ∧
     cell? ([[0, 1]] : MaskT) 0 1 = some 1) ∧
    (cell? (create_overlay (fun img _ _ => img)
        ([[(9, 9, 9), (100, 50, 0)]] : ImageT)
        ([[(255, 0, 0), (0, 0, 255)]] : ImageT) ([[0, 1]] : MaskT) (2/5)) 0 1
      = some (if 0 < 1 then
          blendPixel (2/5) ((100, 50, 0) : RGB) ((0, 0, 255) : RGB)
        else ((100, 50, 0) : RGB)) ∧
    ((1 : ℕ) = 0 →
      cell? (create_overlay (fun img _ _ => img)
        ([[(9, 9, 9), (100, 50, 0)]] : ImageT)
        ([[(255, 0, 0), (0, 0, 255)]] : ImageT) ([[0, 1]] : MaskT) (2/5)) 0 1
        = cell? ((fun img _ _ => img) ([[(9, 9, 9), (100, 50, 0)]] : ImageT)
            (imgWidth ([[(255, 0, 0), (0, 0, 255)]] : ImageT))
            (imgHeight ([[(255, 0, 0), (0, 0, 255)]] : ImageT))) 0 1)) :=
  ⟨⟨by decide, by decide, by decide⟩,
   C3_blend_background_preserved (fun img _ _ => img)
     [[(9, 9, 9), (100, 50, 0)]] [[(255, 0, 0), (0, 0, 255)]] [[0, 1]]
     (2/5) 0 1 (100, 50, 0) (0, 0, 255) 1 (by decide) (by decide) (by decide)⟩


/-- C8 counterexample: for the empty engine-output list under the
detection-based topology, `generate_mask` raises (`output = logits[0]`
executes before the `try` block), instead of yielding an all-background
grid.  This refutes the claim that decode never raises for *every* engine
output, including outputs it cannot interpret at all. -/
theorem C8_counterexample :
    generate_mask (fun a _ => a) (Logits.yolo []) (some (640, 640))
      ModelType.yolo (640, 640) = .error indexErrorMsg := rfl

/-- C8 (amended): for every *non-empty* engine output list under the
detection-based topology, `generate_mask` never raises: with at least
3 dimensions and more than one leading channel it takes the arg-max across
channels, with exactly one channel it thresholds at 0.5, and on any other
shape (fewer than 3 dimensions, or an empty leading axis) it yields the
all-background grid of the model's configured input resolution. -/
theorem C8_amended_nonempty_never_raises
    (resizeNN : NDArray → ℕ × ℕ → NDArray) (original_size : Option (ℕ × ℕ))
    (input_shape : ℕ × ℕ) (output : NDArray) (rest : List NDArray) :
    generate_mask resizeNN (Logits.yolo (output :: rest)) original_size
        ModelType.yolo input_shape
      = .ok (match original_size with
             | some sz => resizeNN (yolo_decode_mask input_shape output) sz
             | none => yolo_decode_mask input_shape output) ∧
    (∀ ts, output = NDArray.arr ts → 3 ≤ output.ndim → 1 < ts.length →
      yolo_decode_mask input_shape output = astypeU8 (argmax0 ts)) ∧
    (∀ t, output = NDArray.arr [t] → 3 ≤ output.ndim →
      yolo_decode_mask input_shape output = astypeU8 (threshold05 t)) ∧
    (output.ndim < 3 ∨ output = NDArray.arr [] →
      yolo_decode_mask input_shape output
        = zerosMask input_shape.2 input_shape.1) := by
  refine ⟨rfl, ?_, ?_, ?_⟩
  · intro ts hts hdim hlen
    subst hts
    simp only [yolo_decode_mask]
    rw [if_pos hdim, if_pos hlen]
  · intro t ht hdim
    subst ht
    simp only [yolo_decode_mask]
    rw [if_pos hdim, if_neg (by simp : ¬ 1 < ([t] : List NDArray).length)]
  · intro h
    rcases h with hdim | hout
    · cases output with
      | val v => simp only [yolo_decode_mask]
      | arr ts =>
        simp only [yolo_decode_mask]
        rw [if_neg (by omega)]
    · subst hout
      simp only [yolo_decode_mask]
      rw [if_neg (by decide : ¬ 3 ≤ NDArray.ndim (NDArray.arr []))]

theorem C8_witness :
    generate_mask (fun a _ => a)
        (Logits.yolo [NDArray.arr
          [NDArray.arr [NDArray.arr [NDArray.val 1]],
           NDArray.arr [NDArray.arr [NDArray.val 0]]]])
        (some (4, 4)) ModelType.yolo (4, 4)
      = .ok (match (some (4, 4) : Option (ℕ × ℕ)) with
             | some sz => (fun (a : NDArray) (_ : ℕ × ℕ) => a)
                 (yolo_decode_mask (4, 4) (NDArray.arr
                   [NDArray.arr [NDArray.arr [NDArray.val 1]],
                    NDArray.arr [NDArray.arr [NDArray.val 0]]])) sz
             | none => yolo_decode_mask (4, 4) (NDArray.arr
                 [NDArray.arr [NDArray.arr [NDArray.val 1]],
                  NDArray.arr [NDArray.arr [NDArray.val 0]]])) ∧
    (∀ ts, NDArray.arr
          [NDArray.arr [NDArray.arr [NDArray.val 1]],
           NDArray.arr [NDArray.arr [NDArray.val 0]]] = NDArray.arr ts →
      3 ≤ (NDArray.arr
          [NDArray.arr [NDArray.arr [NDArray.val 1]],
           NDArray.arr [NDArray.arr [NDArray.val 0]]]).ndim →
      1 < ts.length →
      yolo_decode_mask (4, 4) (NDArray.arr
          [NDArray.arr [NDArray.arr [NDArray.val 1]],
           NDArray.arr [NDArray.arr [NDArray.val 0]]])
        = astypeU8 (argmax0 ts)) ∧
    (∀ t, NDArray.arr
          [NDArray.arr [NDArray.arr [NDArray.val 1]],
           NDArray.arr [NDArray.arr [NDArray.val 0]]] = NDArray.arr [t] →
      3 ≤ (NDArray.arr
          [NDArray.arr [NDArray.arr [NDArray.val 1]],
           NDArray.arr [NDArray.arr [NDArray.val 0]]]).ndim →
      yolo_decode_mask (4, 4) (NDArray.arr
          [NDArray.arr [NDArray.arr [NDArray.val 1]],
           NDArray.arr [NDArray.arr [NDArray.val 0]]])
        = astypeU8 (threshold05 t)) ∧
    ((NDArray.arr
          [NDArray.arr [NDArray.arr [NDArray.val 1]],
           NDArray.arr [NDArray.arr [NDArray.val 0]]]).ndim < 3 ∨
      NDArray.arr
          [NDArray.arr [NDArray.arr [NDArray.val 1]],
           NDArray.arr [NDArray.arr [NDArray.val 0]]] = NDArray.arr [] →
      yolo_decode_mask (4, 4) (NDArray.arr
          [NDArray.arr [NDArray.arr [NDArray.val 1]],
           NDArray.arr [NDArray.arr [NDArray.val 0]]])
        = zerosMask (4, 4).2 (4, 4).1) :=
  C8_amended_nonempty_never_raises (fun a _ => a) (some (4, 4)) (4, 4)
    (NDArray.arr
      [NDArray.arr [NDArray.arr [NDArray.val 1]],
       NDArray.arr [NDArray.arr [NDArray.val 0]]]) []

theorem rhe_close (q : ℚ) : |(rhe q : ℚ) - q| ≤ 1/2 := by
  simp only [rhe]
  have h1 : ((⌊q⌋ : ℤ) : ℚ) ≤ q := Int.floor_le q
  have h2 : q < (⌊q⌋ : ℚ) + 1 := Int.lt_floor_add_one q
  by_cases hlt : q - (⌊q⌋ : ℚ) < 1/2
  · rw [if_pos hlt, abs_le]
    constructor <;> linarith
  · rw [if_neg hlt]
    by_cases hgt : 1/2 < q - (⌊q⌋ : ℚ)
    · rw [if_pos hgt, abs_le]
      push_cast
      constructor <;> linarith
    · rw [if_neg hgt]
      by_cases hev : ⌊q⌋ % 2 = 0
      · rw [if_pos hev, abs_le]
        constructor <;> linarith
      · rw [if_neg hev, abs_le]
        push_cast
        constructor <;> linarith

theorem round2_close (q : ℚ) : |round2 q - q| ≤ 1/200 := by
  have h := rhe_close (100 * q)
  rw [abs_le] at h ⊢
  unfold round2
  constructor <;> · linarith [h.1, h.2]

theorem sum_map_add_split {α : Type} (l : List α) (f g : α → ℕ) :
    (l.map (fun a => f a + g a)).sum = (l.map f).sum + (l.map g).sum := by
  induction l with
  | nil => simp
  | cons a l ih =>
    simp only [List.map_cons, List.sum_cons, ih]
    omega

theorem sum_map_cast {α : Type} (l : List α) (f : α → ℕ) :
    (l.map (fun a => ((f a : ℕ) : ℚ))).sum = (((l.map f).sum : ℕ) : ℚ) := by
  induction l with
  | nil => simp
  | cons a l ih => simp [ih]

theorem sum_indicator_one (ids : List ℕ) (p : ℕ) (hnd : ids.Nodup)
    (hp : p ∈ ids) :
    (ids.map (fun id => if p = id then (1 : ℕ) else 0)).sum = 1 := by
  induction ids with
  | nil => cases hp
  | cons a l ih =>
    rw [List.map_cons, List.sum_cons]
    rcases List.mem_cons.mp hp with h | h
    · subst h
      rw [if_pos rfl]
      have hz : (l.map (fun id => if p = id then (1 : ℕ) else 0)).sum = 0 := by
        apply List.sum_eq_zero
        intro x hx
        obtain ⟨id, hid, hxv⟩ := List.mem_map.mp hx
        have hne : p ≠ id := by
          intro he
          exact (List.nodup_cons.mp hnd).1 (he ▸ hid)
        rw [← hxv, if_neg hne]
      omega
    · have hne : p ≠ a := by
        intro he
        subst he
        exact (List.nodup_cons.mp hnd).1 h
      rw [if_neg hne, ih (List.nodup_cons.mp hnd).2 h]

theorem countP_partition (ids : List ℕ) (hnd : ids.Nodup) (flat : List ℕ)
    (hall : ∀ p ∈ flat, p ∈ ids) :
    (ids.map (fun id => flat.countP (fun p => p = id))).sum
      = flat.length := by
  induction flat with
  | nil => simp
  | cons x xs ih =>
    have hxs : ∀ p ∈ xs, p ∈ ids := fun p hp =>
      hall p (List.mem_cons_of_mem _ hp)
    have hcong : ids.map (fun id => (x :: xs).countP (fun p => p = id))
        = ids.map (fun id => xs.countP (fun p => p = id)
            + if x = id then 1 else 0) := by
      apply List.map_congr_left
      intro id _
      rw [List.countP_cons]
      congr 1
      by_cases h : x = id
      · simp [h]
      · simp [h]
    rw [hcong, sum_map_add_split, ih hxs,
      sum_indicator_one ids x hnd (hall x (List.mem_cons_self x xs)),
      List.length_cons]

theorem sum_round2_close (l : List ℚ) :
    |(l.map round2).sum - l.sum| ≤ (l.length : ℚ) * (1/200) := by
  induction l with
  | nil => simp
  | cons a l ih =>
    rw [List.map_cons, List.sum_cons, List.sum_cons, List.length_cons]
    have h1 := round2_close a
    have habs : |round2 a + (l.map round2).sum - (a + l.sum)|
        ≤ |round2 a - a| + |(l.map round2).sum - l.sum| := by
      have : round2 a + (l.map round2).sum - (a + l.sum)
          = (round2 a - a) + ((l.map round2).sum - l.sum) := by ring
      rw [this]
      exact abs_add _ _
    have hlen : ((l.length + 1 : ℕ) : ℚ) = (l.length : ℚ) + 1 := by push_cast; ring
    rw [hlen]
    calc |round2 a + (l.map round2).sum - (a + l.sum)|
        ≤ |round2 a - a| + |(l.map round2).sum - l.sum| := habs
      _ ≤ 1/200 + (l.length : ℚ) * (1/200) := add_le_add h1 ih
      _ = ((l.length : ℚ) + 1) * (1/200) := by ring

theorem palette_ids_nodup (num_classes : ℕ) :
    ((get_class_metadata num_classes).map ClassMeta.id).Nodup := by
  unfold get_class_metadata
  split
  · decide
  · split
    · decide
    · decide

/-- C7: for a non-empty grid whose values are all class ids of the active
palette, `calculate_statistics` returns one statistic per palette class in
palette order (background included), with
`area_percent = round2 (100 * count / size)` and `present = (count > 0)`,
and the rounded area percentages sum to 100 up to the rounding tolerance
(1/200 per class). -/
theorem C7_per_frame_statistics (mask : MaskT) (num_classes : ℕ)
    (hne : mask.flatten ≠ [])
    (hvals : ∀ p ∈ mask.flatten,
      p ∈ (get_class_metadata num_classes).map ClassMeta.id) :
    (calculate_statistics mask num_classes).length
      = (get_class_metadata num_classes).length ∧
    (∀ i, i < (get_class_metadata num_classes).length →
      (calculate_statistics mask num_classes)[i]?
        = ((get_class_metadata num_classes)[i]?).map (fun ci =>
            { id := ci.id, name := ci.name, color := ci.color
              area_percent := round2 (100 *
                ((mask.flatten.countP (fun p => p = ci.id) : ℚ)
                  / (mask.flatten.length : ℚ)))
              present :=
                decide (0 < mask.flatten.countP (fun p => p = ci.id)) })) ∧
    |((calculate_statistics mask num_classes).map
        ClassStat.area_percent).sum - 100|
      ≤ ((get_class_metadata num_classes).length : ℚ) * (1/200) := by
  have hcalc : calculate_statistics mask num_classes
      = (get_class_metadata num_classes).map (fun ci =>
          { id := ci.id, name := ci.name, color := ci.color
            area_percent := round2
              (((mask.flatten.countP (fun p => p = ci.id) : ℚ)
                / (mask.flatten.length : ℚ)) * 100)
            present :=
              decide (0 < mask.flatten.countP (fun p => p = ci.id)) }) := rfl
  refine ⟨?_, ?_, ?_⟩
  · rw [hcalc, List.length_map]
  · intro i hi
    rw [hcalc, List.getElem?_map]
    cases hp : (get_class_metadata num_classes)[i]? with
    | none => rfl
    | some ci =>
      simp only [Option.map_some']
      have harea : ((mask.flatten.countP (fun p => p = ci.id) : ℚ)
          / (mask.flatten.length : ℚ)) * 100
          = 100 * ((mask.flatten.countP (fun p => p = ci.id) : ℚ)
            / (mask.flatten.length : ℚ)) := by ring
      rw [harea]
  · have hS0 : mask.flatten.length ≠ 0 := by
      intro h
      exact hne (List.eq_nil_of_length_eq_zero h)
    have hS : (mask.flatten.length : ℚ) ≠ 0 := by exact_mod_cast hS0
    rw [hcalc, List.map_map]
    have hrw : (get_class_metadata num_classes).map
        (ClassStat.area_percent ∘ (fun ci =>
          ({ id := ci.id, name := ci.name, color := ci.color
             area_percent := round2
               (((mask.flatten.countP (fun p => p = ci.id) : ℚ)
                 / (mask.flatten.length : ℚ)) * 100)
             present :=
               decide (0 < mask.flatten.countP (fun p => p = ci.id)) }
            : ClassStat)))
        = ((get_class_metadata num_classes).map (fun ci =>
            ((mask.flatten.countP (fun p => p = ci.id) : ℚ)
              / (mask.flatten.length : ℚ)) * 100)).map round2 := by
      rw [List.map_map]
      rfl
    rw [hrw]
    have hsum_u : ((get_class_metadata num_classes).map (fun ci =>
        ((mask.flatten.countP (fun p => p = ci.id) : ℚ)
          / (mask.flatten.length : ℚ)) * 100)).sum = 100 := by
      have h1 : (get_class_metadata num_classes).map (fun ci =>
          ((mask.flatten.countP (fun p => p = ci.id) : ℚ)
            / (mask.flatten.length : ℚ)) * 100)
          = ((get_class_metadata num_classes).map ClassMeta.id).map
              (fun id => ((mask.flatten.countP (fun p => p = id) : ℚ)
                / (mask.flatten.length : ℚ)) * 100) := by
        rw [List.map_map]
        rfl
      rw [h1]
      have h2 : ((get_class_metadata num_classes).map ClassMeta.id).map
          (fun id => ((mask.flatten.countP (fun p => p = id) : ℚ)
            / (mask.flatten.length : ℚ)) * 100)
          = ((get_class_metadata num_classes).map ClassMeta.id).map
              (fun id => ((mask.flatten.countP (fun p => p = id) : ℕ) : ℚ)
                * (100 / (mask.flatten.length : ℚ))) := by
        apply List.map_congr_left
        intro id _
        ring
      rw [h2, List.sum_map_mul_right, sum_map_cast,
        countP_partition _ (palette_ids_nodup num_classes) _ hvals]
      rw [mul_comm, div_mul_cancel₀ _ hS]
    have hclose := sum_round2_close ((get_class_metadata num_classes).map
      (fun ci => ((mask.flatten.countP (fun p => p = ci.id) : ℚ)
        / (mask.flatten.length : ℚ)) * 100))
    rw [hsum_u] at hclose
    simpa using hclose

theorem C7_witness :
    (([[0, 1], [1, 1]] : MaskT).flatten ≠ [] ∧
     ∀ p ∈ ([[0, 1], [1, 1]] : MaskT).flatten,
       p ∈ (get_class_metadata 4).map ClassMeta.id) ∧
    ((calculate_statistics ([[0, 1], [1, 1]] : MaskT) 4).length
      = (get_class_metadata 4).length ∧
    (∀ i, i < (get_class_metadata 4).length →
      (calculate_statistics ([[0, 1], [1, 1]] : MaskT) 4)[i]?
        = ((get_class_metadata 4)[i]?).map (fun ci =>
            { id := ci.id, name := ci.name, color := ci.color
              area_percent := round2 (100 *
                ((([[0, 1], [1, 1]] : MaskT).flatten.countP
                    (fun p => p = ci.id) : ℚ)
                  / (([[0, 1], [1, 1]] : MaskT).flatten.length : ℚ)))
              present := decide
                (0 < ([[0, 1], [1, 1]] : MaskT).flatten.countP
                  (fun p => p = ci.id)) })) ∧
    |((calculate_statistics ([[0, 1], [1, 1]] : MaskT) 4).map
        ClassStat.area_percent).sum - 100|
      ≤ ((get_class_metadata 4).length : ℚ) * (1/200)) :=
  ⟨⟨by decide, by decide⟩,
   C7_per_frame_statistics [[0, 1], [1, 1]] 4 (by decide) (by decide)⟩

theorem round2_zero : round2 0 = 0 := by
  norm_num [round2, rhe]

theorem find_map_stat (l : List ClassMeta) (f : ClassMeta → ClassStat)
    (hf : ∀ c, (f c).id = c.id) (hnd : (l.map ClassMeta.id).Nodup)
    (ci : ClassMeta) (hci : ci ∈ l) :
    (l.map f).find? (fun s => s.id = ci.id) = some (f ci) := by
  induction l with
  | nil => cases hci
  | cons a l ih =>
    rw [List.map_cons]
    by_cases h : (f a).id = ci.id
    · have hstep : List.find? (fun s => decide (s.id = ci.id))
          (f a :: List.map f l) = some (f a) :=
        List.find?_cons_of_pos _ (by simpa using h)
      rw [hstep]
      rcases List.mem_cons.mp hci with rfl | hmem
      · rfl
      · exfalso
        have hmem' : ci.id ∈ l.map ClassMeta.id :=
          List.mem_map_of_mem ClassMeta.id hmem
        have ha : a.id = ci.id := by rw [← hf a, h]
        exact (List.nodup_cons.mp hnd).1 (ha ▸ hmem')
    · have hstep : List.find? (fun s => decide (s.id = ci.id))
          (f a :: List.map f l)
          = List.find? (fun s => decide (s.id = ci.id)) (List.map f l) :=
        List.find?_cons_of_neg _ (by simpa using h)
      rw [hstep]
      rcases List.mem_cons.mp hci with rfl | hmem
      · exact absurd (hf ci) h
      · exact ih (List.nodup_cons.mp hnd).2 hmem

theorem aggregate_fold_split (frames_stats : List (List ClassStat))
    (cid : ℕ) (a : ℕ) (b : ℚ) :
    frames_stats.foldl (fun (acc : ℕ × ℚ) frame_stat =>
      match frame_stat.find? (fun s => s.id = cid) with
      | some class_stat =>
          if class_stat.present then
            (acc.1 + 1, acc.2 + class_stat.area_percent)
          else acc
      | none => acc) (a, b)
      = (a + frames_stats.countP (fun fs =>
            ((fs.find? (fun s => s.id = cid)).map ClassStat.present).getD
              false),
         b + (frames_stats.map (fun fs =>
            match fs.find? (fun s => s.id = cid) with
            | some st => if st.present then st.area_percent else 0
            | none => 0)).sum) := by
  induction frames_stats generalizing a b with
  | nil => simp
  | cons fs rest ih =>
    rw [List.countP_cons, List.map_cons, List.sum_cons]
    cases hf : fs.find? (fun s => s.id = cid) with
    | none =>
      simp only [List.foldl_cons, hf]
      rw [ih, Prod.mk.injEq]
      constructor
      · simp
      · simp
    | some st =>
      simp only [List.foldl_cons, hf]
      by_cases hp : st.present
      · rw [if_pos hp]
        rw [ih, Prod.mk.injEq]
        constructor
        · simp only [Option.map_some', Option.getD_some, hp, if_true]
          omega
        · simp only [hp, if_true]
          ring
      · rw [if_neg hp]
        rw [ih, Prod.mk.injEq]
        constructor
        · simp only [Option.map_some', Option.getD_some]
          simp [hp]
        · simp [hp]

/-- C4: on per-frame statistics lists as produced by
`calculate_statistics`, `aggregate_video_statistics` returns one entry per
non-background palette class, `frames_present` counts the frames whose
`present` flag is set, `avg_area_percent` is the sum of the class's
`area_percent` over all frames (present or not — absent frames contribute
0) divided by the number of frames and rounded to 2 decimals, an empty
frame list yields 0 for every class, and background never appears. -/
theorem C4_aggregate_statistics (grids : List MaskT) (num_classes : ℕ) :
    aggregate_video_statistics
        (grids.map (fun g => calculate_statistics g num_classes)) num_classes
      = ((get_class_metadata num_classes).filter (fun ci => ci.id ≠ 0)).map
          (fun ci =>
            { id := ci.id, name := ci.name, color := ci.color
              frames_present := grids.countP (fun g =>
                decide (0 < g.flatten.countP (fun p => p = ci.id)))
              avg_area_percent := round2
                (if grids.isEmpty then 0
                 else (grids.map (fun g => round2
                    (((g.flatten.countP (fun p => p = ci.id) : ℚ)
                      / (g.flatten.length : ℚ)) * 100))).sum
                  / (grids.length : ℚ)) }) ∧
    (∀ st ∈ aggregate_video_statistics
        (grids.map (fun g => calculate_statistics g num_classes)) num_classes,
      st.id ≠ 0) ∧
    (grids = [] →
      ∀ st ∈ aggregate_video_statistics
          (grids.map (fun g => calculate_statistics g num_classes))
          num_classes,
        st.avg_area_percent = 0) := by
  have hfind : ∀ (g : MaskT) (ci : ClassMeta),
      ci ∈ get_class_metadata num_classes →
      (calculate_statistics g num_classes).find? (fun s => s.id = ci.id)
        = some ({ id := ci.id, name := ci.name, color := ci.color
                  area_percent := round2
                    (((g.flatten.countP (fun p => p = ci.id) : ℚ)
                      / (g.flatten.length : ℚ)) * 100)
                  present :=
                    decide (0 < g.flatten.countP (fun p => p = ci.id)) }) := by
    intro g ci hci
    exact find_map_stat _ _ (fun c => rfl) (palette_ids_nodup num_classes)
      ci hci
  have hmain : aggregate_video_statistics
      (grids.map (fun g => calculate_statistics g num_classes)) num_classes
      = ((get_class_metadata num_classes).filter (fun ci => ci.id ≠ 0)).map
          (fun ci =>
            { id := ci.id, name := ci.name, color := ci.color
              frames_present := grids.countP (fun g =>
                decide (0 < g.flatten.countP (fun p => p = ci.id)))
              avg_area_percent := round2
                (if grids.isEmpty then 0
                 else (grids.map (fun g => round2
                    (((g.flatten.countP (fun p => p = ci.id) : ℚ)
                      / (g.flatten.length : ℚ)) * 100))).sum
                  / (grids.length : ℚ)) }) := by
    unfold aggregate_video_statistics
    apply List.map_congr_left
    intro ci hcif
    have hci : ci ∈ get_class_metadata num_classes :=
      (List.mem_filter.mp hcif).1
    have hfp : (grids.map
        (fun g => calculate_statistics g num_classes)).countP
        (fun fs => ((fs.find? (fun s => s.id = ci.id)).map
          ClassStat.present).getD false)
        = grids.countP (fun g =>
            decide (0 < g.flatten.countP (fun p => p = ci.id))) := by
      rw [List.countP_map]
      apply List.countP_congr
      intro g _
      simp only [Function.comp]
      rw [hfind g ci hci]
      rfl
    have hsum : ((grids.map (fun g => calculate_statistics g num_classes)).map
        (fun fs => match fs.find? (fun s => s.id = ci.id) with
          | some st => if st.present then st.area_percent else 0
          | none => 0)).sum
        = (grids.map (fun g => round2
            (((g.flatten.countP (fun p => p = ci.id) : ℚ)
              / (g.flatten.length : ℚ)) * 100))).sum := by
      rw [List.map_map]
      congr 1
      apply List.map_congr_left
      intro g _
      simp only [Function.comp]
      rw [hfind g ci hci]
      by_cases hp : 0 < g.flatten.countP (fun p => p = ci.id)
      · dsimp only
        rw [if_pos (decide_eq_true hp)]
      · dsimp only
        rw [if_neg (by simpa using hp)]
        have hcnt : g.flatten.countP (fun p => p = ci.id) = 0 := by omega
        rw [hcnt, Nat.cast_zero, zero_div, zero_mul, round2_zero]
    dsimp only
    rw [aggregate_fold_split]
    simp only [AggStat.mk.injEq]
    refine ⟨by trivial, by trivial, by trivial, ?_, ?_⟩
    · rw [Nat.zero_add]
      exact hfp
    · congr 1
      rcases grids with _ | ⟨g0, gs⟩
      · rfl
      · have h1 : ((g0 :: gs).map
            (fun g => calculate_statistics g num_classes)).isEmpty
            = false := rfl
        have h2 : (g0 :: gs).isEmpty = false := rfl
        rw [h1, h2]
        simp only [Bool.false_eq_true, if_false]
        rw [zero_add, hsum, List.length_map]
  refine ⟨hmain, ?_, ?_⟩
  · intro st hst
    rw [hmain] at hst
    obtain ⟨ci, hcif, hv⟩ := List.mem_map.mp hst
    have : ci.id ≠ 0 := by
      have := (List.mem_filter.mp hcif).2
      simpa using this
    rw [← hv]
    exact this
  · intro hg st hst
    subst hg
    rw [hmain] at hst
    obtain ⟨ci, hcif, hv⟩ := List.mem_map.mp hst
    rw [← hv]
    simp [round2_zero]

theorem C4_witness :
    aggregate_video_statistics
        (([[[0, 1]], [[1, 1]]] : List MaskT).map
          (fun g => calculate_statistics g 4)) 4
      = ((get_class_metadata 4).filter (fun ci => ci.id ≠ 0)).map
          (fun ci =>
            { id := ci.id, name := ci.name, color := ci.color
              frames_present := ([[[0, 1]], [[1, 1]]] : List MaskT).countP
                (fun g =>
                  decide (0 < g.flatten.countP (fun p => p = ci.id)))
              avg_area_percent := round2
                (if ([[[0, 1]], [[1, 1]]] : List MaskT).isEmpty then 0
                 else (([[[0, 1]], [[1, 1]]] : List MaskT).map
                    (fun g => round2
                      (((g.flatten.countP (fun p => p = ci.id) : ℚ)
                        / (g.flatten.length : ℚ)) * 100))).sum
                  / (([[[0, 1]], [[1, 1]]] : List MaskT).length : ℚ)) }) ∧
    (∀ st ∈ aggregate_video_statistics
        (([[[0, 1]], [[1, 1]]] : List MaskT).map
          (fun g => calculate_statistics g 4)) 4,
      st.id ≠ 0) ∧
    (([[[0, 1]], [[1, 1]]] : List MaskT) = [] →
      ∀ st ∈ aggregate_video_statistics
          (([[[0, 1]], [[1, 1]]] : List MaskT).map
            (fun g => calculate_statistics g 4)) 4,
        st.avg_area_percent = 0) :=
  C4_aggregate_statistics [[[0, 1]], [[1, 1]]] 4
